import Mathlib

/-!
# DataAlchemist core engine: a shallow embedding

This file embeds the data-handling core of the DataAlchemist repository in
Lean 4 and proves properties of it:

* the JavaScript value model used by data rows (scalars and arrays of
  scalars), with the coercions the code performs (`parseFloat`, `String(..)`,
  truthiness, strict equality);
* the predicate evaluator and action applier of
  `src/app/api/modify-data/route.ts` (filter matching with type
  harmonization, per-action mutation semantics, the table-level pipeline,
  and the structural validation of AI-supplied instructions);
* the schema validator `validateData` of `src/lib/dataProcessor.ts`;
* the rule model and the precedence resolver of the allocation-analysis
  route, plus the `visibleRules` filter of `RuleConfigurator.tsx`;
* the AI-issue merge `combineErrors` of `src/app/page.tsx`, modelled with an
  explicit store so that reference sharing and in-place mutation are visible.

Numbers are idealized as rationals (the source operates on JS doubles; every
property proved here concerns small integral values where the two agree).
-/

namespace DataAlchemist

/-! ## JavaScript value model

A row cell holds a scalar (string, number, boolean, null) or an array of
scalars, exactly the value space produced by `parseFile` in
`src/lib/dataProcessor.ts`. -/

inductive Scalar where
  | str (s : String)
  | num (q : ℚ)
  | bool (b : Bool)
  | null
deriving DecidableEq, Repr

inductive JVal where
  | prim (s : Scalar)
  | arr (xs : List Scalar)
deriving DecidableEq, Repr

/-- A data row: a mapping from column names to values, in key order
(`DataRow` in `src/types/index.ts`). An absent key models `undefined`. -/
abbrev Row := List (String × JVal)

def Row.get (r : Row) (k : String) : Option JVal :=
  (List.find? (fun p => p.1 = k) r).map (fun p => p.2)

/-- `row[k] = v` in JS: replace the value if the key exists (keeping key
order), otherwise add the key at the end. -/
def Row.setCol (r : Row) (k : String) (v : JVal) : Row :=
  if List.any r (fun p => p.1 = k) then
    List.map (fun p => if p.1 = k then (k, v) else p) r
  else r ++ [(k, v)]

/-! ### String and number coercions -/

/-- Model of JS `String.prototype.toLowerCase` (ASCII case folding; the
source only ever compares ASCII column values). -/
def lowerStr (s : String) : String := String.mk (s.data.map Char.toLower)

/-- Model of JS `String.prototype.trim` (strips whitespace from both
ends). -/
def jsTrim (s : String) : String :=
  String.mk (((s.data.dropWhile Char.isWhitespace).reverse.dropWhile
      Char.isWhitespace).reverse)

/-- Model of JS `hay.includes(needle)`: substring containment. -/
def strIncludes (hay needle : String) : Bool :=
  (List.range (hay.data.length + 1)).any
    (fun i => needle.data.isPrefixOf (hay.data.drop i))

/-- Model of JS `s.startsWith(p)`. -/
def strStartsWith (s p : String) : Bool := p.data.isPrefixOf s.data

/-- Model of JS `s.endsWith(p)`. -/
def strEndsWith (s p : String) : Bool := p.data.reverse.isPrefixOf s.data.reverse

/-- Numeric value of a list of decimal digit characters. -/
def digitsToNat (cs : List Char) : Nat :=
  cs.foldl (fun n c => n * 10 + (c.toNat - 48)) 0

/-- Rational addition by numerator/denominator arithmetic. Used instead of
`Rat.add`, which is sealed against unfolding and so cannot be evaluated
inside witness proofs; `mkRat` normalizes, so the value is the same
rational. -/
def ratAdd (a b : ℚ) : ℚ := mkRat (a.num * (b.den : Int) + b.num * (a.den : Int)) (a.den * b.den)

/-- Rational negation by numerator arithmetic (see `ratAdd`). -/
def ratNeg (a : ℚ) : ℚ := mkRat (-a.num) a.den

/-- Rational subtraction (see `ratAdd`). -/
def ratSub (a b : ℚ) : ℚ := ratAdd a (ratNeg b)

/-- Core of the JS `parseFloat` grammar on a character list: optional sign,
integer digits, optional fraction. Returns the parsed value and the
unconsumed remainder; `none` when no digit could be read. Exponent notation
is not modelled (no value in this development uses it). -/
def parseFloatCore (cs : List Char) : Option ℚ × List Char :=
  let sgn : Bool × List Char :=
    match cs with
    | '-' :: t => (true, t)
    | '+' :: t => (false, t)
    | _ => (false, cs)
  let ip := sgn.2.takeWhile Char.isDigit
  let cs2 := sgn.2.dropWhile Char.isDigit
  let fp : List Char × List Char :=
    match cs2 with
    | '.' :: t => (t.takeWhile Char.isDigit, t.dropWhile Char.isDigit)
    | _ => ([], cs2)
  if ip.isEmpty && fp.1.isEmpty then (none, cs)
  else
    let scaled : Nat := digitsToNat ip * 10 ^ fp.1.length + digitsToNat fp.1
    let signed : Int := if sgn.1 then -(scaled : Int) else (scaled : Int)
    (some (mkRat signed (10 ^ fp.1.length)), fp.2)

/-- Model of JS `parseFloat`: skip leading whitespace, then parse the longest
numeric prefix; `none` models `NaN`. -/
def parseFloatJS (s : String) : Option ℚ :=
  (parseFloatCore (s.data.dropWhile Char.isWhitespace)).1

/-- The string is, after leading whitespace, exactly one numeral (it "parses
cleanly"): the numeric grammar consumes the whole string. -/
def numeralClean (s : String) : Option ℚ :=
  match parseFloatCore (s.data.dropWhile Char.isWhitespace) with
  | (some q, []) => some q
  | _ => none

/-- Model of JS `Number(string)`: whitespace-only strings convert to `0`,
otherwise the entire (trimmed) string must be a numeral; `none` models
`NaN`. Hex and exponent literals are not modelled. -/
def strToNumberJS (s : String) : Option ℚ :=
  let t := jsTrim s
  if t = "" then some 0 else numeralClean t

/-- Decimal digits of a proper fraction `r / d`, with fuel (JS prints at most
17 significant digits; all values in this development terminate well before
the fuel runs out). -/
def fracDigits : Nat → Nat → Nat → List Char
  | 0, _, _ => []
  | _ + 1, 0, _ => []
  | fuel + 1, r, d => Char.ofNat (48 + r * 10 / d) :: fracDigits fuel (r * 10 % d) d

/-- Model of JS number-to-string conversion. Exact on integers (the only
numbers this development ever prints); finite decimals are produced for
fractional values. -/
def jsNumToString (q : ℚ) : String :=
  let sign := if q.num < 0 then "-" else ""
  let n := q.num.natAbs
  if q.den = 1 then sign ++ toString n
  else sign ++ toString (n / q.den) ++ "." ++ String.mk (fracDigits 20 (n % q.den) q.den)

def scalarToString : Scalar → String
  | .str s => s
  | .num q => jsNumToString q
  | .bool b => if b then "true" else "false"
  | .null => "null"

/-- Element conversion inside `Array.prototype.toString`: `null` renders as
the empty string there. -/
def scalarToStringInArr : Scalar → String
  | .null => ""
  | x => scalarToString x

/-- Model of JS `String(value)` on row values: arrays join their elements
with commas. -/
def jsToString : JVal → String
  | .prim s => scalarToString s
  | .arr xs => String.intercalate "," (xs.map scalarToStringInArr)

/-- JS truthiness of a row value. -/
def truthy : JVal → Bool
  | .prim (.str s) => !(s = "")
  | .prim (.num q) => !(q = 0)
  | .prim (.bool b) => b
  | .prim .null => false
  | .arr _ => true

/-- JS strict equality (`===`) between two row values. Arrays compare by
reference; at every comparison site in the source the two array operands
come from distinct allocations (a deep-copied row versus a freshly parsed
instruction), so array-array comparison is `false`. -/
def jsStrictEq : JVal → JVal → Bool
  | .prim a, .prim b => a = b
  | _, _ => false

/-- `originalValue === newValue` where the original may be `undefined`
(absent column). `undefined` is strictly equal to no JSON-representable
value. -/
def jsStrictEqOpt : Option JVal → JVal → Bool
  | none, _ => false
  | some u, v => jsStrictEq u v

/-! ## Predicate evaluator

Embedding of the filter-matching loop of the `POST` handler in
`src/app/api/modify-data/route.ts`. The `operator` field is kept as a raw
string: the instruction arrives from an external collaborator and the code
handles unknown operators in a `default` branch. -/

structure DataFilter where
  column : String
  operator : String
  value : JVal
deriving DecidableEq, Repr

/-- Type harmonization before comparison: a string on one side is coerced to
a number when the other side is a number and `parseFloat` succeeds on it,
and to a boolean (comparison with `"true"` after lowercasing) when the other
side is a boolean. -/
def harmonize (cv fv : JVal) : JVal × JVal :=
  match cv, fv with
  | .prim (.str s), .prim (.num _) =>
    (match parseFloatJS s with
     | some q => (.prim (.num q), fv)
     | none => (cv, fv))
  | .prim (.num _), .prim (.str s) =>
    (match parseFloatJS s with
     | some q => (cv, .prim (.num q))
     | none => (cv, fv))
  | .prim (.str s), .prim (.bool _) => (.prim (.bool (lowerStr s = "true")), fv)
  | .prim (.bool _), .prim (.str s) => (cv, .prim (.bool (lowerStr s = "true")))
  | _, _ => (cv, fv)

/-- The `switch (filter.operator)` of the evaluator, applied to the two
harmonized values; `true` means the filter matches. Unknown operators fall
through to a non-match. -/
def evalOp (op : String) (a b : JVal) : Bool :=
  if op = "eq" then
    match a, b with
    | .prim (.str u), .prim (.str v) => lowerStr u = lowerStr v
    | _, _ => jsStrictEq a b
  else if op = "neq" then
    match a, b with
    | .prim (.str u), .prim (.str v) => !(lowerStr u = lowerStr v)
    | _, _ => !(jsStrictEq a b)
  else if op = "gt" then
    match a, b with
    | .prim (.num x), .prim (.num y) => decide (y < x)
    | _, _ => false
  else if op = "lt" then
    match a, b with
    | .prim (.num x), .prim (.num y) => decide (x < y)
    | _, _ => false
  else if op = "gte" then
    match a, b with
    | .prim (.num x), .prim (.num y) => decide (y ≤ x)
    | _, _ => false
  else if op = "lte" then
    match a, b with
    | .prim (.num x), .prim (.num y) => decide (x ≤ y)
    | _, _ => false
  else if op = "contains" then
    match a, b with
    | .prim (.str u), .prim (.str v) => strIncludes (lowerStr u) (lowerStr v)
    | _, _ => false
  else if op = "not_contains" then
    match a, b with
    | .prim (.str u), .prim (.str v) => !(strIncludes (lowerStr u) (lowerStr v))
    | _, _ => false
  else if op = "starts_with" then
    match a, b with
    | .prim (.str u), .prim (.str v) => strStartsWith (lowerStr u) (lowerStr v)
    | _, _ => false
  else if op = "ends_with" then
    match a, b with
    | .prim (.str u), .prim (.str v) => strEndsWith (lowerStr u) (lowerStr v)
    | _, _ => false
  else false

/-- One filter against one row: a row with no value (absent or `null`) in
the filter's column never matches; otherwise the values are harmonized and
the operator applied. -/
def matchesFilter (row : Row) (f : DataFilter) : Bool :=
  match Row.get row f.column with
  | none => false
  | some (.prim .null) => false
  | some v =>
    let hv := harmonize v f.value
    evalOp f.operator hv.1 hv.2

/-- A row matches the instruction only if every filter matches (the loop
short-circuits on the first non-match, which `List.all` reproduces). -/
def matchesFilters (row : Row) (fs : List DataFilter) : Bool :=
  fs.all (matchesFilter row)

/-! ## Action applier -/

structure DataModificationAction where
  column : String
  newValue : JVal
  operation : Option String
deriving DecidableEq, Repr

/-- `action.operation || 'set'`: absent or empty-string operations default
to `set`. -/
def effectiveOp (a : DataModificationAction) : String :=
  match a.operation with
  | none => "set"
  | some s => if s = "" then "set" else s

/-- The warning text logged when `increment`/`decrement` meets a
non-numeric operand. -/
def numericSkipMsg (op col : String) : String :=
  "Attempted '" ++ op ++ "' on non-numeric or incompatible types for column '" ++ col ++ "'."

/-- The warning text logged when `append`/`prepend` meets operands that are
neither both strings nor both arrays. -/
def concatSkipMsg (op col : String) : String :=
  "Attempted '" ++ op ++ "' on incompatible types for column '" ++ col ++ "'."

/-- The warning text logged for an operation outside the enumerated set. -/
def unknownOpMsg (op : String) : String :=
  "Unknown action operation: " ++ op ++ ". Skipping this action."

/-- One action against one row: returns the new row, whether the row
changed, and the `console.warn` diagnostics emitted (the source logs these
warnings instead of collecting them). Never fails: incompatible operations
leave the row untouched. -/
def applyAction (r : Row) (a : DataModificationAction) : Row × Bool × List String :=
  let originalValue := Row.get r a.column
  let nv := a.newValue
  let op := effectiveOp a
  if op = "set" then
    if jsStrictEqOpt originalValue nv then (r, false, [])
    else (Row.setCol r a.column nv, true, [])
  else if op = "increment" then
    match originalValue, nv with
    | some (.prim (.num x)), .prim (.num y) =>
      (Row.setCol r a.column (.prim (.num (ratAdd x y))), true, [])
    | _, _ => (r, false, [numericSkipMsg "increment" a.column])
  else if op = "decrement" then
    match originalValue, nv with
    | some (.prim (.num x)), .prim (.num y) =>
      (Row.setCol r a.column (.prim (.num (ratSub x y))), true, [])
    | _, _ => (r, false, [numericSkipMsg "decrement" a.column])
  else if op = "append" then
    match originalValue, nv with
    | some (.prim (.str x)), .prim (.str y) =>
      (Row.setCol r a.column (.prim (.str (x ++ y))), true, [])
    | some (.arr xs), .arr ys => (Row.setCol r a.column (.arr (xs ++ ys)), true, [])
    | _, _ => (r, false, [concatSkipMsg "append" a.column])
  else if op = "prepend" then
    match originalValue, nv with
    | some (.prim (.str x)), .prim (.str y) =>
      (Row.setCol r a.column (.prim (.str (y ++ x))), true, [])
    | some (.arr xs), .arr ys => (Row.setCol r a.column (.arr (ys ++ xs)), true, [])
    | _, _ => (r, false, [concatSkipMsg "prepend" a.column])
  else (r, false, [unknownOpMsg op])

/-- All actions of an instruction applied in list order against the row's
evolving state. The changed flag is the disjunction of the per-action
flags, and the warnings accumulate in emission order. -/
def applyActions (r : Row) : List DataModificationAction → Row × Bool × List String
  | [] => (r, false, [])
  | a :: rest =>
    let s1 := applyAction r a
    let s2 := applyActions s1.1 rest
    (s2.1, s1.2.1 || s2.2.1, s1.2.2 ++ s2.2.2)

/-! ## Schema validator

Embedding of `validateData` in `src/lib/dataProcessor.ts`. -/

/-- `SuggestedCorrection` of `src/types/index.ts`. -/
structure SuggestedCorrection where
  column : String
  newValue : JVal
  reason : Option String
deriving DecidableEq, Repr

/-- `ValidationError` of `src/types/index.ts` (with the AI-merge fields of
the extended variant of that interface). `none` models an absent optional
field. -/
structure ValidationError where
  row : Nat
  column : String
  message : String
  severity : String
  suggestedCorrection : Option SuggestedCorrection := none
  isAIIdentified : Option Bool := none
  isAnomaly : Option Bool := none
  aiConfidence : Option ℚ := none
deriving DecidableEq, Repr

/-- `FileCategory` of `src/types/index.ts`. -/
inductive FileCategory where
  | clients
  | workers
  | tasks
deriving DecidableEq, Repr

/-- The `idColumnMap` of `validateData`. -/
def idColumnOf : FileCategory → String
  | .clients => "clientId"
  | .workers => "workerId"
  | .tasks => "taskId"

/-- The local `isEmpty` helper: `null`, `undefined`, or a value whose string
conversion trims to the empty string. -/
def isEmptyVal (v : JVal) : Bool :=
  v = .prim .null || jsTrim (jsToString v) = ""

/-- `isEmpty` on a possibly-absent value (`undefined` is empty). -/
def isEmptyOpt : Option JVal → Bool
  | none => true
  | some v => isEmptyVal v

/-- The message of a duplicate-identifier issue. -/
def dupIdMsg (idValue : String) : String :=
  "Duplicate ID found: '" ++ idValue ++ "'. IDs must be unique."

def mkDupErr (rowNum : Nat) (idColumn idValue : String) : ValidationError :=
  { row := rowNum, column := idColumn, message := dupIdMsg idValue, severity := "error" }

/-- The trim-normalized primary-key value of a row: `none` when the id
column is absent or `null` (the duplicate tracker skips such rows). -/
def trimmedId (idColumn : String) (r : Row) : Option String :=
  match Row.get r idColumn with
  | none => none
  | some (.prim .null) => none
  | some v => some (jsTrim (jsToString v))

/-- The empty-value warnings of one row (first per-row loop of
`validateData`). -/
def emptyColIssues (idx : Nat) (r : Row) : List ValidationError :=
  r.filterMap (fun p =>
    if isEmptyVal p.2 then
      some { row := idx + 1, column := p.1,
             message := "Empty value found in column '" ++ p.1 ++ "'.",
             severity := "warning" }
    else none)

/-- The first `data.forEach` of `validateData`: per-row empty-value
warnings interleaved with the duplicate-id check, which threads the
`encounteredIds` set (modelled as the list of ids added so far). -/
def baseLoop (idColumn : String) : List Row → Nat → List String → List ValidationError
  | [], _, _ => []
  | r :: rs, idx, seen =>
    let empties := emptyColIssues idx r
    match trimmedId idColumn r with
    | none => empties ++ baseLoop idColumn rs (idx + 1) seen
    | some idValue =>
      let dups :=
        if !(idValue = "") && seen.contains idValue then [mkDupErr (idx + 1) idColumn idValue]
        else []
      empties ++ dups ++ baseLoop idColumn rs (idx + 1) (idValue :: seen)

/-- The missing-critical-identifier error of a category. -/
def mkMissingIdErr (cat : FileCategory) (rowNum : Nat) : ValidationError :=
  { row := rowNum, column := idColumnOf cat,
    message := "Missing or empty '" ++ idColumnOf cat ++ "'. This is a critical identifier.",
    severity := "error" }

/-- The email-format warning of the clients branch. -/
def mkEmailWarn (rowNum : Nat) (v : JVal) : ValidationError :=
  { row := rowNum, column := "email",
    message := "'" ++ jsToString v ++ "' is not a valid email format.",
    severity := "warning" }

/-- Model of the regex `^[^\s@]+@[^\s@]+\.[^\s@]+$`: the string splits at a
unique `@` into a non-empty local part and a domain that carries a dot with
at least one character on each side, with no whitespace or further `@`
anywhere. -/
def emailOk (s : String) : Bool :=
  match s.data.splitOnP (fun c => c = '@') with
  | [l, d] =>
    !(l.isEmpty) && l.all (fun c => !c.isWhitespace) && d.all (fun c => !c.isWhitespace)
      && ((d.drop 1).dropLast.contains '.')
  | _ => false

/-- The invalid-status warning of the clients branch. -/
def mkStatusWarn (rowNum : Nat) (v : JVal) : ValidationError :=
  { row := rowNum, column := "status",
    message := "'" ++ jsToString v ++
      "' is not a valid status. Expected: active, inactive, pending, vip (case-insensitive).",
    severity := "warning" }

/-- The category-specific issues of one clients row. -/
def clientRowIssues (idx : Nat) (r : Row) : List ValidationError :=
  let missing :=
    if isEmptyOpt (Row.get r "clientId") then [mkMissingIdErr .clients (idx + 1)] else []
  let email :=
    match Row.get r "email" with
    | none => []
    | some v =>
      if truthy v && !(isEmptyVal v) then
        match v with
        | .prim (.str s) => if !(emailOk (jsTrim s)) then [mkEmailWarn (idx + 1) v] else []
        | _ => []
      else []
  let status :=
    match Row.get r "status" with
    | none => []
    | some v =>
      if truthy v && !(isEmptyVal v) then
        if ["active", "inactive", "pending", "vip"].contains (lowerStr (jsToString v)) then []
        else [mkStatusWarn (idx + 1) v]
      else []
  missing ++ email ++ status

/-- Model of JS `Number(value)` on a row value (`ToNumber` semantics on the
value space of a row; `none` models `NaN`). -/
def jsNumber : JVal → Option ℚ
  | .prim (.num q) => some q
  | .prim (.bool b) => some (if b then 1 else 0)
  | .prim .null => some 0
  | .prim (.str s) => strToNumberJS s
  | .arr xs => strToNumberJS (jsToString (.arr xs))

/-- The category-specific issues of one workers row. -/
def workerRowIssues (idx : Nat) (r : Row) : List ValidationError :=
  let missing :=
    if isEmptyOpt (Row.get r "workerId") then [mkMissingIdErr .workers (idx + 1)] else []
  let skills :=
    if isEmptyOpt (Row.get r "skills") then
      [{ row := idx + 1, column := "skills",
         message := "'skills' should be a non-empty value.", severity := "warning" }]
    else []
  let rate :=
    match Row.get r "hourlyRate" with
    | none => []
    | some v =>
      if !(v = .prim .null) && !(isEmptyVal v) then
        match jsNumber v with
        | none =>
          [{ row := idx + 1, column := "hourlyRate",
             message := "'hourlyRate' must be a positive number.", severity := "warning" }]
        | some q =>
          if q ≤ 0 then
            [{ row := idx + 1, column := "hourlyRate",
               message := "'hourlyRate' must be a positive number.", severity := "warning" }]
          else []
      else []
  missing ++ skills ++ rate

/-- Approximate model of JS date-string validity (`new Date(s)` producing a
valid date): an ISO `yyyy-mm-dd` shape. The full, implementation-defined
JS date grammar is deliberately out of scope; no claim in this development
depends on the exact extension of this predicate. -/
def jsDateValidStr (s : String) : Bool :=
  match s.data.splitOnP (fun c => c = '-') with
  | [y, m, d] =>
    y.length = 4 && y.all Char.isDigit && m.all Char.isDigit && d.all Char.isDigit
      && 1 ≤ digitsToNat m && digitsToNat m ≤ 12 && 1 ≤ digitsToNat d && digitsToNat d ≤ 31
  | _ => false

/-- Model of `new Date(n)` validity for a numeric timestamp: within the JS
time range of ±8.64e15 milliseconds. -/
def jsDateValidNum (q : ℚ) : Bool :=
  decide (-(8640000000000000 : Int) ≤ q.num) && decide (q.num ≤ (8640000000000000 : Int) * (q.den : Int))

/-- The category-specific issues of one tasks row. -/
def taskRowIssues (idx : Nat) (r : Row) : List ValidationError :=
  let missing :=
    if isEmptyOpt (Row.get r "taskId") then [mkMissingIdErr .tasks (idx + 1)] else []
  let priority :=
    match Row.get r "priority" with
    | none => []
    | some v =>
      if truthy v && !(isEmptyVal v) then
        if ["high", "medium", "low", "urgent"].contains (lowerStr (jsToString v)) then []
        else
          [{ row := idx + 1, column := "priority",
             message := "'" ++ jsToString v ++
               "' is not a valid priority. Expected: high, medium, low, urgent (case-insensitive).",
             severity := "warning" }]
      else []
  let due :=
    match Row.get r "dueDate" with
    | none => []
    | some v =>
      if !(v = .prim .null) && !(isEmptyVal v) then
        match v with
        | .prim (.str s) =>
          if jsDateValidStr s then []
          else
            [{ row := idx + 1, column := "dueDate",
               message := "'" ++ jsToString v ++ "' is not a valid date format.",
               severity := "warning" }]
        | .prim (.num q) =>
          if jsDateValidNum q then []
          else
            [{ row := idx + 1, column := "dueDate",
               message := "'" ++ jsToString v ++ "' is not a valid date format.",
               severity := "warning" }]
        | _ =>
          [{ row := idx + 1, column := "dueDate",
             message := "Due Date must be a string or number (timestamp) for task '" ++
               (match Row.get r "taskId" with
                | none => "undefined"
                | some tid => jsToString tid) ++ "' at row " ++ toString (idx + 1) ++ ".",
             severity := "error" }]
      else []
  missing ++ priority ++ due

/-- The category-specific per-row issues. -/
def catRowIssues : FileCategory → Nat → Row → List ValidationError
  | .clients, idx, r => clientRowIssues idx r
  | .workers, idx, r => workerRowIssues idx r
  | .tasks, idx, r => taskRowIssues idx r

/-- The `switch (category)` loop of `validateData`. -/
def catLoop (cat : FileCategory) : List Row → Nat → List ValidationError
  | [], _ => []
  | r :: rs, idx => catRowIssues cat idx r ++ catLoop cat rs (idx + 1)

/-- `validateData(data, category)`: an empty dataset yields exactly the
no-data warning; otherwise the base per-row loop runs, followed by the
category-specific loop. -/
def validateData (data : List Row) (category : FileCategory) : List ValidationError :=
  if data.isEmpty then
    [{ row := 0, column := "N/A", message := "No data to validate.", severity := "warning" }]
  else baseLoop (idColumnOf category) data 0 [] ++ catLoop category data 0

/-! ## Table-level modification pipeline

The body of the `POST` handler of `src/app/api/modify-data/route.ts` after
the AI call: structural validation of the parsed instructions, deep copy,
row loop, re-validation, response assembly. -/

/-- `DataModificationInstructions` of `src/types/index.ts`. -/
structure DataModificationInstructions where
  targetCategory : String
  filters : List DataFilter
  actions : List DataModificationAction
  description : String
  confirmationRequired : Bool
deriving DecidableEq, Repr

/-- One field of the JSON object the external collaborator returned:
either a value of the shape the code expects, or something else
(`some j`: present with the wrong shape; `none`: absent). -/
inductive RawField (α : Type) where
  | shaped (a : α)
  | other (v : Option JVal)
deriving DecidableEq

def RawField.isShaped {α : Type} : RawField α → Bool
  | .shaped _ => true
  | .other _ => false

/-- The parsed-but-unvalidated instruction object. -/
structure RawInstructions where
  targetCategory : RawField String
  filters : RawField (List DataFilter)
  actions : RawField (List DataModificationAction)
  description : RawField String
  confirmationRequired : RawField Bool

/-- The structural-validation chain of the handler (the sequence of
`Array.isArray` / `typeof` guards, in source order); the thrown `Error`
messages become `Except.error` values. -/
def validateInstructions (raw : RawInstructions) : Except String DataModificationInstructions :=
  match raw.filters with
  | .other _ => .error "Invalid or missing 'filters' in AI-generated instructions. Expected an array."
  | .shaped fs =>
    match raw.actions with
    | .other _ => .error "Invalid or missing 'actions' in AI-generated instructions. Expected an array."
    | .shaped acts =>
      match raw.targetCategory with
      | .other _ => .error "Missing or invalid 'targetCategory'. Expected a string."
      | .shaped tc =>
        match raw.description with
        | .other _ => .error "Missing or invalid 'description'. Expected a string."
        | .shaped descr =>
          match raw.confirmationRequired with
          | .other _ => .error "Missing or invalid 'confirmationRequired'. Expected a boolean."
          | .shaped cr => .ok ⟨tc, fs, acts, descr, cr⟩

/-- `JSON.parse(JSON.stringify(v))` on a row value: on this value space the
round-trip rebuilds an equal value in fresh storage. -/
def jsonDeepCopyVal : JVal → JVal
  | .prim s => .prim s
  | .arr xs => .arr (xs.map (fun x => x))

def jsonDeepCopyRow (r : Row) : Row := r.map (fun p => (p.1, jsonDeepCopyVal p.2))

/-- The deep copy `JSON.parse(JSON.stringify(currentData))` of the whole
dataset. -/
def jsonDeepCopy (rows : List Row) : List Row := rows.map jsonDeepCopyRow

/-- The row loop of the handler over the (copied) dataset: each row that
matches every filter is replaced by the result of the actions; the affected
count totals the rows whose changed flag was set; the warning log
accumulates in emission order. -/
def modifyRows (fs : List DataFilter) (acts : List DataModificationAction) :
    List Row → List Row × Nat × List String
  | [] => ([], 0, [])
  | r :: rs =>
    let hd : Row × Nat × List String :=
      if matchesFilters r fs then
        let t := applyActions r acts
        (t.1, if t.2.1 then 1 else 0, t.2.2)
      else (r, 0, [])
    let rest := modifyRows fs acts rs
    (hd.1 :: rest.1, hd.2.1 + rest.2.1, hd.2.2 ++ rest.2.2)

/-- `ParsedData` of `src/types/index.ts`. -/
structure ParsedData where
  headers : List String
  data : List Row
  errors : List ValidationError
deriving DecidableEq, Repr

/-- The success-path payload of `GeminiDataModificationResponse` as the
handler builds it (the interface's optional `modifiedData` and `error`
fields are never set on this path, so they are not modelled). Note the
type has no field for skipped-action diagnostics. -/
structure GeminiDataModificationResponse where
  success : Bool
  message : String
  fullUpdatedData : ParsedData
  instructions : DataModificationInstructions
  rowCountAffected : Nat
deriving DecidableEq, Repr

/-- `Object.keys(currentData[0])` when the dataset is non-empty. -/
def headersOf (rows : List Row) : List String :=
  match rows with
  | [] => []
  | r :: _ => r.map (fun p => p.1)

/-- The whole handler after JSON parsing: structural validation (a failed
check throws, caught into a failure value), then deep copy, row loop,
fresh validation pass and response assembly. The `console.warn` log of the
row loop is dropped here — the response carries no diagnostics. -/
def postModifyData (category : FileCategory) (currentData : List Row)
    (raw : RawInstructions) : Except String GeminiDataModificationResponse :=
  match validateInstructions raw with
  | .error m => .error ("Failed to modify data: " ++ m)
  | .ok instructions =>
    let headers := headersOf currentData
    let updatedData := jsonDeepCopy currentData
    let res := modifyRows instructions.filters instructions.actions updatedData
    .ok
      { success := true
        message := "Data modification successful. Affected " ++ toString res.2.1 ++ " rows."
        fullUpdatedData :=
          { headers := headers, data := res.1, errors := validateData res.1 category }
        instructions := instructions
        rowCountAffected := res.2.1 }

/-- The `console.warn` diagnostics emitted during a run of the pipeline
(observable on the server console only). -/
def modifySkippedLog (currentData : List Row) (instructions : DataModificationInstructions) :
    List String :=
  (modifyRows instructions.filters instructions.actions (jsonDeepCopy currentData)).2.2

/-! ## Rule model and precedence resolver

The `Rule` union of `src/types/index.ts` and the `orderedRules`
computation of the allocation-analysis route, plus the `visibleRules`
filter of `src/components/RuleConfigurator.tsx`. -/

/-- The payloads of the six concrete rule kinds of the `Rule` union
(everything except the natural-language wrapper). -/
inductive ConcreteRuleKind where
  | coRun (taskIds : List String)
  | slotRestriction (groupType groupName : String) (minCommonSlots : ℚ)
      (targetPhases : Option (List ℚ))
  | loadLimit (workerGroup : String) (maxLoad : ℚ) (phase : Option ℚ)
  | phaseWindow (taskId : String) (allowedPhases : List (Sum ℚ String))
  | patternMatch (entity column regex action : String)
      (transformTo flagMessage : Option String)
  | precedenceOverride (ruleIds : List String)
deriving DecidableEq, Repr

/-- The per-variant payload of the `Rule` union: a concrete kind or the
natural-language wrapper, whose `suggestedStructuredRule` is restricted to
the concrete kinds (`Exclude<Rule, NaturalLanguageRule>` in the source), so
a wrapper can never nest inside itself. -/
inductive RuleKind where
  | concrete (k : ConcreteRuleKind)
  | naturalLanguage (originalPrompt : String)
      (suggestedStructuredRule : Option ConcreteRuleKind) (aiConfidence : Option ℚ)
deriving DecidableEq, Repr

/-- A rule: the shared `BaseRule` fields plus the variant payload. -/
structure Rule where
  id : String
  description : String
  isEnabled : Bool
  source : String
  kind : RuleKind
deriving DecidableEq, Repr

/-- The `type` discriminator string of a rule. -/
def Rule.rtype (r : Rule) : String :=
  match r.kind with
  | .concrete (.coRun _) => "coRun"
  | .concrete (.slotRestriction _ _ _ _) => "slotRestriction"
  | .concrete (.loadLimit _ _ _) => "loadLimit"
  | .concrete (.phaseWindow _ _) => "phaseWindow"
  | .concrete (.patternMatch _ _ _ _ _ _) => "patternMatch"
  | .concrete (.precedenceOverride _) => "precedenceOverride"
  | .naturalLanguage _ _ _ => "naturalLanguage"

/-- The `ruleIds` field, meaningful on a precedence override. -/
def Rule.ruleIds (r : Rule) : List String :=
  match r.kind with
  | .concrete (.precedenceOverride ids) => ids
  | _ => []

/-- `rules.filter(rule => rule.isEnabled)`. -/
def activeRules (rules : List Rule) : List Rule := rules.filter (fun r => r.isEnabled)

/-- `activeRules.find(rule => rule.type === 'precedenceOverride')`. -/
def precedenceRuleOf (rules : List Rule) : Option Rule :=
  (activeRules rules).find? (fun r => r.rtype = "precedenceOverride")

/-- `new Map(activeRules.map(rule => [rule.id, rule])).get(ruleId)`: a JS
`Map` built by insertion keeps the last entry per key. -/
def rulesMapGet (rules : List Rule) (ruleId : String) : Option Rule :=
  (activeRules rules).reverse.find? (fun r => r.id = ruleId)

/-- The `orderedRules` computation of the allocation-analysis route: with an
enabled override carrying a non-empty `ruleIds`, resolve each listed id and
keep enabled non-override hits, then append the remaining enabled
non-override rules in their original order; otherwise just the enabled
non-override rules. -/
def orderedRules (rules : List Rule) : List Rule :=
  match precedenceRuleOf rules with
  | some pr =>
    if 0 < pr.ruleIds.length then
      let placed := (pr.ruleIds.filterMap (rulesMapGet rules)).filter
        (fun r => r.isEnabled && !(r.rtype = "precedenceOverride"))
      let rest := (activeRules rules).filter
        (fun r => !(r.rtype = "precedenceOverride") && !(placed.any (fun o => o.id = r.id)))
      placed ++ rest
    else (activeRules rules).filter (fun r => !(r.rtype = "precedenceOverride"))
  | none => (activeRules rules).filter (fun r => !(r.rtype = "precedenceOverride"))

/-- `visibleRules` of `RuleConfigurator.tsx`: every rule except the
precedence override. -/
def visibleRules (rules : List Rule) : List Rule :=
  rules.filter (fun r => !(r.rtype = "precedenceOverride"))

/-- Resolution of one listed id against the enabled-rule collection, as the
specification words it: an id resolves when some enabled rule carries it
and that rule is not itself the override; anything else is silently
dropped. -/
def resolveId (enabled : List Rule) (i : String) : Option Rule :=
  match enabled.find? (fun r => r.id = i) with
  | some r => if !(r.rtype = "precedenceOverride") then some r else none
  | none => none

/-- The resolver as §4.4 of the specification words it: resolve each listed
id against the enabled-rule collection (dropping ids that do not resolve to
an enabled, non-override rule), then append every enabled non-override rule
not already placed, in original relative order. Stated here separately so
the implementation can be proved to refine it. -/
def resolverSpecOrder (rules : List Rule) : List Rule :=
  match precedenceRuleOf rules with
  | some pr =>
    if 0 < pr.ruleIds.length then
      let placed := pr.ruleIds.filterMap (resolveId (activeRules rules))
      placed ++ (activeRules rules).filter
        (fun r => !(r.rtype = "precedenceOverride") && !(placed.any (fun o => o.id = r.id)))
    else (activeRules rules).filter (fun r => !(r.rtype = "precedenceOverride"))
  | none => (activeRules rules).filter (fun r => !(r.rtype = "precedenceOverride"))

/-! ## AI-issue merge (`combineErrors` of `src/app/page.tsx`)

The JS function mutates the caller's static issue objects through the
references the `combined` array shares with `staticErrors`. To make
reference sharing and in-place mutation provable facts, the embedding keeps
an explicit store: the static issues and the AI issues each live in an
addressed list, and `combined` holds addresses. -/

/-- An address of an issue object: an index into the static store or into
the AI-issue store. -/
inductive ErrRef where
  | stat (i : Nat)
  | ai (j : Nat)
deriving DecidableEq, Repr

/-- The mutable state of a `combineErrors` run. -/
structure CombineState where
  statics : List ValidationError
  ais : List ValidationError
  combined : List ErrRef
deriving Repr

def derefIssue (st : CombineState) : ErrRef → Option ValidationError
  | .stat i => st.statics[i]?
  | .ai j => st.ais[j]?

def writeIssue (st : CombineState) (ref : ErrRef) (e : ValidationError) : CombineState :=
  match ref with
  | .stat i => { st with statics := st.statics.set i e }
  | .ai j => { st with ais := st.ais.set j e }

/-- The duplicate test of `combineErrors`: same row, case-insensitive
column, same message. -/
def issueMatches (se ai : ValidationError) : Bool :=
  se.row = ai.row && lowerStr se.column = lowerStr ai.column && se.message = ai.message

/-- The body of the `aiIssues.forEach` of `combineErrors` for the AI issue
stored at index `j`: a non-duplicate is appended to `combined` (by
reference); a duplicate with a correction the existing entry lacks mutates
that existing object in place. -/
def combineStep (st : CombineState) (j : Nat) : CombineState :=
  match st.ais[j]? with
  | none => st
  | some ai =>
    if st.statics.any (fun se => issueMatches se ai) then
      match st.combined.find? (fun ref =>
          match derefIssue st ref with
          | some se => issueMatches se ai
          | none => false) with
      | some ref =>
        match derefIssue st ref with
        | some ex =>
          if ai.suggestedCorrection.isSome && ex.suggestedCorrection.isNone then
            writeIssue st ref
              { ex with suggestedCorrection := ai.suggestedCorrection,
                        isAIIdentified := some true,
                        aiConfidence := ai.aiConfidence }
          else st
        | none => st
      | none => st
    else { st with combined := st.combined ++ [.ai j] }

/-- `combineErrors(staticErrors, aiIssues)`: the combined array starts as a
shallow copy of `staticErrors` (addresses into the static store), then each
AI issue is processed in order. -/
def combineErrors (staticErrors aiIssues : List ValidationError) : CombineState :=
  (List.range aiIssues.length).foldl combineStep
    ⟨staticErrors, aiIssues, (List.range staticErrors.length).map ErrRef.stat⟩

/-- The value of the list `combineErrors` returns, read through the
store. -/
def combinedValues (st : CombineState) : List ValidationError :=
  st.combined.filterMap (derefIssue st)

/-! ## Helper lemmas -/

/-- A cleanly parsing numeral is in particular a successful `parseFloat`
(whose grammar merely stops at the first non-numeric character instead of
requiring the end of the string). -/
lemma parseFloatJS_of_numeralClean {s : String} {q : ℚ} (h : numeralClean s = some q) :
    parseFloatJS s = some q := by
  unfold numeralClean at h
  unfold parseFloatJS
  rcases hc : parseFloatCore (s.data.dropWhile Char.isWhitespace) with ⟨o, rest⟩
  rw [hc] at h
  rcases o with _ | q'
  · simp at h
  · rcases rest with _ | ⟨c, cs⟩
    · simp at h
      simp [h]
    · simp at h

/-- The enumerated filter operators. -/
def knownFilterOps : List String :=
  ["eq", "neq", "gt", "lt", "gte", "lte", "contains", "not_contains", "starts_with", "ends_with"]

/-- The enumerated action operations. -/
def knownActionOps : List String := ["set", "increment", "decrement", "append", "prepend"]

/-! ## Claim C4 -/

/-- C4: string/number harmonization before comparison — a row-side string
that parses cleanly to a number is coerced to that number when the filter
value is a number (and symmetrically); after harmonization, `eq`/`neq`
compare case-insensitively exactly when both sides are still strings and by
strict equality otherwise; concretely, row `{amount: "42"}` matches
`eq 42` and does not match `neq 42`. -/
theorem c4_coercion_eq_neq :
    (∀ (s : String) (q m : ℚ), numeralClean s = some q →
      harmonize (.prim (.str s)) (.prim (.num m)) = (.prim (.num q), .prim (.num m)) ∧
      harmonize (.prim (.num m)) (.prim (.str s)) = (.prim (.num m), .prim (.num q))) ∧
    (∀ a b : JVal,
      evalOp "eq" a b = (match a, b with
        | .prim (.str u), .prim (.str v) => decide (lowerStr u = lowerStr v)
        | _, _ => jsStrictEq a b) ∧
      evalOp "neq" a b = (match a, b with
        | .prim (.str u), .prim (.str v) => !(decide (lowerStr u = lowerStr v))
        | _, _ => !(jsStrictEq a b))) ∧
    matchesFilters [("amount", .prim (.str "42"))] [⟨"amount", "eq", .prim (.num 42)⟩] = true ∧
    matchesFilters [("amount", .prim (.str "42"))] [⟨"amount", "neq", .prim (.num 42)⟩] = false := by
  refine ⟨?_, ?_, by decide, by decide⟩
  · intro s q m h
    have hp : parseFloatJS s = some q := parseFloatJS_of_numeralClean h
    constructor <;> simp [harmonize, hp]
  · intro a b
    constructor <;> rfl

/-- Witness for C4 at `s = "42"`, `q = m = 42`. -/
theorem c4_coercion_eq_neq_witness :
    harmonize (.prim (.str "42")) (.prim (.num 42)) = (.prim (.num 42), .prim (.num 42)) ∧
    evalOp "eq" (.prim (.num 42)) (.prim (.num 42)) = jsStrictEq (.prim (.num 42)) (.prim (.num 42)) :=
  ⟨(c4_coercion_eq_neq.1 "42" 42 42 (by decide)).1,
   (c4_coercion_eq_neq.2.1 (.prim (.num 42)) (.prim (.num 42))).1⟩

/-! ## Claim C8 -/

/-- C8: the numeric comparators match only when both harmonized sides are
numbers; the substring comparators match only when both sides are strings
and compare case-insensitively; an operator outside the enumerated set is a
guaranteed non-match; an action operation outside the enumerated set is a
no-op that merely logs a warning (the embedding is a total function — no
branch throws). -/
theorem c8_operator_guards :
    (∀ (op : String) (a b : JVal), (op = "gt" ∨ op = "lt" ∨ op = "gte" ∨ op = "lte") →
      evalOp op a b = true → (∃ x, a = .prim (.num x)) ∧ ∃ y, b = .prim (.num y)) ∧
    (∀ (op : String) (a b : JVal),
      (op = "contains" ∨ op = "not_contains" ∨ op = "starts_with" ∨ op = "ends_with") →
      evalOp op a b = true → (∃ u, a = .prim (.str u)) ∧ ∃ v, b = .prim (.str v)) ∧
    (∀ u v : String,
      evalOp "contains" (.prim (.str u)) (.prim (.str v))
          = strIncludes (lowerStr u) (lowerStr v) ∧
      evalOp "not_contains" (.prim (.str u)) (.prim (.str v))
          = !(strIncludes (lowerStr u) (lowerStr v)) ∧
      evalOp "starts_with" (.prim (.str u)) (.prim (.str v))
          = strStartsWith (lowerStr u) (lowerStr v) ∧
      evalOp "ends_with" (.prim (.str u)) (.prim (.str v))
          = strEndsWith (lowerStr u) (lowerStr v)) ∧
    (∀ (op : String) (a b : JVal), op ∉ knownFilterOps → evalOp op a b = false) ∧
    (∀ (r : Row) (act : DataModificationAction), effectiveOp act ∉ knownActionOps →
      applyAction r act = (r, false, [unknownOpMsg (effectiveOp act)])) := by
  refine ⟨?_, ?_, ?_, ?_, ?_⟩
  · intro op a b hop htrue
    rcases hop with h | h | h | h <;> subst h <;>
      rcases a with ⟨sa⟩ | xs <;> try rcases sa with u | x | ba | _ <;>
        rcases b with ⟨sb⟩ | ys <;> try rcases sb with v | y | bb | _
    all_goals simp [evalOp] at htrue ⊢
  · intro op a b hop htrue
    rcases hop with h | h | h | h <;> subst h <;>
      rcases a with ⟨sa⟩ | xs <;> try rcases sa with u | x | ba | _ <;>
        rcases b with ⟨sb⟩ | ys <;> try rcases sb with v | y | bb | _
    all_goals simp [evalOp] at htrue ⊢
  · intro u v
    refine ⟨rfl, rfl, rfl, rfl⟩
  · intro op a b hop
    simp [knownFilterOps] at hop
    obtain ⟨h1, h2, h3, h4, h5, h6, h7, h8, h9, h10⟩ := hop
    simp [evalOp, h1, h2, h3, h4, h5, h6, h7, h8, h9, h10]
  · intro r act hop
    simp [knownActionOps] at hop
    obtain ⟨h1, h2, h3, h4, h5⟩ := hop
    simp [applyAction, h1, h2, h3, h4, h5]

/-- Witness for C8: the numeric guard at `gt` on two numbers, the unknown
filter operator `"regex"`, and an action with unknown operation
`"shuffle"`. -/
theorem c8_operator_guards_witness :
    ((∃ x, JVal.prim (.num 3) = JVal.prim (.num x)) ∧ ∃ y, JVal.prim (.num 2) = .prim (.num y)) ∧
    evalOp "regex" (.prim (.str "a")) (.prim (.str "a")) = false ∧
    applyAction [("c", .prim (.num 1))] ⟨"c", .prim (.num 1), some "shuffle"⟩
      = ([("c", .prim (.num 1))], false, [unknownOpMsg "shuffle"]) :=
  ⟨c8_operator_guards.1 "gt" (.prim (.num 3)) (.prim (.num 2)) (Or.inl rfl) (by decide),
   c8_operator_guards.2.2.2.1 "regex" (.prim (.str "a")) (.prim (.str "a")) (by decide),
   c8_operator_guards.2.2.2.2 [("c", .prim (.num 1))] ⟨"c", .prim (.num 1), some "shuffle"⟩
     (by decide)⟩

/-! ## Claim C6 -/

/-- C6: an externally supplied instruction whose structure is invalid
(filters or actions not an array, targetCategory or description not a
string, confirmationRequired not a boolean) is rejected wholesale with an
explicit failure value; the failure is computed before the dataset is even
consulted (it is the same for every dataset), so no partial mutation can
occur. -/
theorem c6_structural_rejection :
    ∀ (cat : FileCategory) (data : List Row) (raw : RawInstructions),
      (raw.filters.isShaped = false ∨ raw.actions.isShaped = false ∨
       raw.targetCategory.isShaped = false ∨ raw.description.isShaped = false ∨
       raw.confirmationRequired.isShaped = false) →
      ∃ m, postModifyData cat data raw = .error m ∧
        ∀ data' : List Row, postModifyData cat data' raw = .error m := by
  intro cat data raw h
  rcases raw with ⟨tc, fil, act, descr, cr⟩
  rcases fil with fs | v
  case other => exact ⟨_, rfl, fun _ => rfl⟩
  rcases act with acts | v
  case other => exact ⟨_, rfl, fun _ => rfl⟩
  rcases tc with tc | v
  case other => exact ⟨_, rfl, fun _ => rfl⟩
  rcases descr with descr | v
  case other => exact ⟨_, rfl, fun _ => rfl⟩
  rcases cr with cr | v
  case other => exact ⟨_, rfl, fun _ => rfl⟩
  simp [RawField.isShaped] at h

/-- Witness for C6: a raw instruction whose `filters` field is absent. -/
theorem c6_structural_rejection_witness :
    ∃ m, postModifyData .clients [[("clientId", .prim (.str "C1"))]]
        ⟨.shaped "clients", .other none, .shaped [], .shaped "d", .shaped true⟩ = .error m ∧
      ∀ data' : List Row, postModifyData .clients data'
        ⟨.shaped "clients", .other none, .shaped [], .shaped "d", .shaped true⟩ = .error m :=
  c6_structural_rejection .clients [[("clientId", .prim (.str "C1"))]]
    ⟨.shaped "clients", .other none, .shaped [], .shaped "d", .shaped true⟩ (Or.inl rfl)

/-! ## Claim C7 -/

lemma jsonDeepCopyVal_id (v : JVal) : jsonDeepCopyVal v = v := by
  cases v with
  | prim s => rfl
  | arr xs => simp [jsonDeepCopyVal]

lemma jsonDeepCopyRow_id (r : Row) : jsonDeepCopyRow r = r := by
  unfold jsonDeepCopyRow
  have : ∀ p : String × JVal, (p.1, jsonDeepCopyVal p.2) = p := by
    intro p
    rw [jsonDeepCopyVal_id]
  simp [this]

lemma jsonDeepCopy_id (rows : List Row) : jsonDeepCopy rows = rows := by
  induction rows with
  | nil => rfl
  | cons r rs ih =>
    show jsonDeepCopyRow r :: jsonDeepCopy rs = r :: rs
    rw [jsonDeepCopyRow_id, ih]

lemma modifyRows_fst (fs : List DataFilter) (acts : List DataModificationAction) :
    ∀ rows : List Row, (modifyRows fs acts rows).1
      = rows.map (fun r => if matchesFilters r fs then (applyActions r acts).1 else r) := by
  intro rows
  induction rows with
  | nil => rfl
  | cons r rs ih =>
    by_cases hm : matchesFilters r fs = true <;> simp [modifyRows, hm, ih]

lemma modifyRows_count (fs : List DataFilter) (acts : List DataModificationAction) :
    ∀ rows : List Row, (modifyRows fs acts rows).2.1
      = rows.countP (fun r => matchesFilters r fs && (applyActions r acts).2.1) := by
  intro rows
  induction rows with
  | nil => rfl
  | cons r rs ih =>
    rw [List.countP_cons]
    by_cases hm : matchesFilters r fs = true
    · by_cases hc : (applyActions r acts).2.1 = true
      · simp [modifyRows, hm, hc, ih]
        omega
      · simp [modifyRows, hm, hc, ih]
    · simp [modifyRows, hm, ih]

/-- C7: the table-level pipeline runs on a deep copy of the dataset which is
value-identical to the original (the caller's rows are read, never
written: the response is a function of the copy); each row is transformed
independently (rows that match no filter pass through untouched); the
affected count is exactly the number of rows on which some action set the
changed flag; and the response's `errors` field is a fresh `validateData`
pass over the resulting dataset. -/
theorem c7_pipeline_deep_copy_count_revalidate :
    ∀ (cat : FileCategory) (data : List Row) (instr : DataModificationInstructions),
      jsonDeepCopy data = data ∧
      (modifyRows instr.filters instr.actions data).1
        = data.map (fun r =>
            if matchesFilters r instr.filters then (applyActions r instr.actions).1 else r) ∧
      (modifyRows instr.filters instr.actions data).2.1
        = data.countP (fun r =>
            matchesFilters r instr.filters && (applyActions r instr.actions).2.1) ∧
      postModifyData cat data
          ⟨.shaped instr.targetCategory, .shaped instr.filters, .shaped instr.actions,
           .shaped instr.description, .shaped instr.confirmationRequired⟩
        = .ok
          { success := true
            message := "Data modification successful. Affected "
              ++ toString (modifyRows instr.filters instr.actions data).2.1 ++ " rows."
            fullUpdatedData :=
              { headers := headersOf data
                data := (modifyRows instr.filters instr.actions data).1
                errors := validateData (modifyRows instr.filters instr.actions data).1 cat }
            instructions := instr
            rowCountAffected := (modifyRows instr.filters instr.actions data).2.1 } := by
  intro cat data instr
  have hcopy : jsonDeepCopy data = data := jsonDeepCopy_id data
  refine ⟨hcopy, modifyRows_fst _ _ data, modifyRows_count _ _ data, ?_⟩
  simp [postModifyData, validateInstructions, hcopy]

/-! ## Claim C1 -/

/-- Shape tests used to state type-incompatibility of an action. -/
def isNumOpt : Option JVal → Bool
  | some (.prim (.num _)) => true
  | _ => false

def isNumJ : JVal → Bool
  | .prim (.num _) => true
  | _ => false

def isStrOpt : Option JVal → Bool
  | some (.prim (.str _)) => true
  | _ => false

def isStrJ : JVal → Bool
  | .prim (.str _) => true
  | _ => false

def isArrOpt : Option JVal → Bool
  | some (.arr _) => true
  | _ => false

def isArrJ : JVal → Bool
  | .arr _ => true
  | _ => false

lemma isPrefixOf_append_self : ∀ l t : List Char, l.isPrefixOf (l ++ t) = true := by
  intro l t
  induction l with
  | nil => simp [List.isPrefixOf]
  | cons c cs ih => simp [List.isPrefixOf, ih]

lemma string_data_append (a b : String) : (a ++ b).data = a.data ++ b.data := rfl

/-- A factor of a concatenation is found by `strIncludes`. -/
lemma strIncludes_of_parts (hay x : String) (a b : List Char)
    (h : hay.data = a ++ (x.data ++ b)) : strIncludes hay x = true := by
  unfold strIncludes
  rw [List.any_eq_true]
  refine ⟨a.length, List.mem_range.mpr ?_, ?_⟩
  · rw [h]
    simp
    omega
  · rw [h, List.drop_left]
    exact isPrefixOf_append_self _ _

/-- The concrete run used to refute C1: one task row whose `duration` holds
the string `"abc"`, and an instruction incrementing `duration` by `5`. -/
def c1ExData : List Row := [[("taskId", .prim (.str "T1")), ("duration", .prim (.str "abc"))]]

def c1ExInstr : DataModificationInstructions :=
  ⟨"tasks", [], [⟨"duration", .prim (.num 5), some "increment"⟩], "increase", false⟩

def c1ExRaw : RawInstructions :=
  ⟨.shaped "tasks", .shaped c1ExInstr.filters, .shaped c1ExInstr.actions,
   .shaped "increase", .shaped false⟩

/-- C1 counterexample: on this run one action is skipped for type
incompatibility (the console log records it), yet the returned response —
written out below field by field, and whose type
`GeminiDataModificationResponse` has no field for diagnostics — carries no
skipped-action diagnostic: it does not even mention the skip, reporting
plain success with zero affected rows. The skipped action is therefore not
observable in the returned result, contradicting the claim. -/
theorem c1_response_drops_skips_counterexample :
    modifySkippedLog c1ExData c1ExInstr = [numericSkipMsg "increment" "duration"] ∧
    postModifyData .tasks c1ExData c1ExRaw = .ok
      { success := true
        message := "Data modification successful. Affected 0 rows."
        fullUpdatedData := { headers := ["taskId", "duration"], data := c1ExData, errors := [] }
        instructions := c1ExInstr
        rowCountAffected := 0 } ∧
    strIncludes "Data modification successful. Affected 0 rows."
      (numericSkipMsg "increment" "duration") = false :=
  ⟨rfl, rfl, rfl⟩

/-- C1 amended: a type-incompatible action is skipped — the row is left
untouched and a diagnostic naming the column and the operation is emitted —
but only to the console log (`console.warn`); the response the pipeline
returns is assembled purely from the updated data, the affected count, the
echoed instructions and a fresh validation pass, and never includes the
skipped-action diagnostics. -/
theorem c1_skips_console_only_amended :
    (∀ (r : Row) (act : DataModificationAction),
      (effectiveOp act = "increment" ∨ effectiveOp act = "decrement") →
      (isNumOpt (Row.get r act.column) && isNumJ act.newValue) = false →
      applyAction r act = (r, false, [numericSkipMsg (effectiveOp act) act.column])) ∧
    (∀ (r : Row) (act : DataModificationAction),
      (effectiveOp act = "append" ∨ effectiveOp act = "prepend") →
      ((isStrOpt (Row.get r act.column) && isStrJ act.newValue)
        || (isArrOpt (Row.get r act.column) && isArrJ act.newValue)) = false →
      applyAction r act = (r, false, [concatSkipMsg (effectiveOp act) act.column])) ∧
    (∀ op col : String,
      strIncludes (numericSkipMsg op col) op = true ∧
      strIncludes (numericSkipMsg op col) col = true ∧
      strIncludes (concatSkipMsg op col) op = true ∧
      strIncludes (concatSkipMsg op col) col = true) ∧
    (∀ (cat : FileCategory) (data : List Row) (instr : DataModificationInstructions),
      postModifyData cat data
          ⟨.shaped instr.targetCategory, .shaped instr.filters, .shaped instr.actions,
           .shaped instr.description, .shaped instr.confirmationRequired⟩
        = .ok
          { success := true
            message := "Data modification successful. Affected "
              ++ toString (modifyRows instr.filters instr.actions data).2.1 ++ " rows."
            fullUpdatedData :=
              { headers := headersOf data
                data := (modifyRows instr.filters instr.actions data).1
                errors := validateData (modifyRows instr.filters instr.actions data).1 cat }
            instructions := instr
            rowCountAffected := (modifyRows instr.filters instr.actions data).2.1 }) := by
  refine ⟨?_, ?_, ?_, ?_⟩
  · intro r act hop hbad
    rcases hop with h | h <;>
      rcases hget : Row.get r act.column with _ | v <;>
      rcases hnv : act.newValue with ⟨sn⟩ | ys <;>
      (try rcases v with ⟨sv⟩ | xs) <;>
      (try rcases sn with w | y | bn | _) <;>
      (try rcases sv with u | x | bv | _) <;>
      simp_all [applyAction, isNumOpt, isNumJ]
  · intro r act hop hbad
    rcases hop with h | h <;>
      rcases hget : Row.get r act.column with _ | v <;>
      rcases hnv : act.newValue with ⟨sn⟩ | ys <;>
      (try rcases v with ⟨sv⟩ | xs) <;>
      (try rcases sn with w | y | bn | _) <;>
      (try rcases sv with u | x | bv | _) <;>
      simp_all [applyAction, isStrOpt, isStrJ, isArrOpt, isArrJ]
  · intro op col
    refine ⟨?_, ?_, ?_, ?_⟩
    · exact strIncludes_of_parts _ _ ("Attempted '").data
        (("' on non-numeric or incompatible types for column '" ++ col ++ "'.").data)
        (by simp [numericSkipMsg, string_data_append, List.append_assoc])
    · exact strIncludes_of_parts _ _
        (("Attempted '" ++ op ++ "' on non-numeric or incompatible types for column '").data)
        (("'.").data)
        (by simp [numericSkipMsg, string_data_append, List.append_assoc])
    · exact strIncludes_of_parts _ _ ("Attempted '").data
        (("' on incompatible types for column '" ++ col ++ "'.").data)
        (by simp [concatSkipMsg, string_data_append, List.append_assoc])
    · exact strIncludes_of_parts _ _
        (("Attempted '" ++ op ++ "' on incompatible types for column '").data)
        (("'.").data)
        (by simp [concatSkipMsg, string_data_append, List.append_assoc])
  · intro cat data instr
    simp [postModifyData, validateInstructions, jsonDeepCopy_id]

/-- Witness for C1 amended: the increment-on-a-string skip of the
counterexample run. -/
theorem c1_skips_console_only_amended_witness :
    applyAction [("duration", .prim (.str "abc"))] ⟨"duration", .prim (.num 5), some "increment"⟩
      = ([("duration", .prim (.str "abc"))], false, [numericSkipMsg "increment" "duration"]) :=
  c1_skips_console_only_amended.1 [("duration", .prim (.str "abc"))]
    ⟨"duration", .prim (.num 5), some "increment"⟩ (Or.inl rfl) (by decide)

/-! ## Claim C10 -/

lemma find?_map_eq {α β : Type} (f : α → β) (p : β → Bool) :
    ∀ l : List α, (l.map f).find? p = (l.find? (fun x => p (f x))).map f := by
  intro l
  induction l with
  | nil => rfl
  | cons a t ih =>
    by_cases h : p (f a) = true <;> simp [List.find?_cons, h, ih]

lemma find?_range_first (q : Nat → Bool) (n i : Nat) (hi : i < n) (hq : q i = true)
    (hk : ∀ k, k < i → q k = false) : (List.range n).find? q = some i := by
  induction n with
  | zero => omega
  | succ n ih =>
    rw [List.range_succ, List.find?_append]
    rcases Nat.lt_or_ge i n with h | h
    · rw [ih h]
      rfl
    · have hin : i = n := by omega
      subst hin
      have hnone : (List.range i).find? q = none := by
        rw [List.find?_eq_none]
        intro x hx
        simp [hk x (List.mem_range.mp hx)]
      rw [hnone]
      simp [List.find?, hq]

lemma writeIssue_combined (st : CombineState) (ref : ErrRef) (e : ValidationError) :
    (writeIssue st ref e).combined = st.combined := by
  cases ref <;> rfl

/-- `combineStep` only ever appends to the combined list. -/
lemma combineStep_combined_extend (st : CombineState) (j : Nat) :
    ∃ t, (combineStep st j).combined = st.combined ++ t := by
  unfold combineStep
  split
  · exact ⟨[], by simp⟩
  · split
    · split
      · split
        · split
          · exact ⟨[], by simp [writeIssue_combined]⟩
          · exact ⟨[], by simp⟩
        · exact ⟨[], by simp⟩
      · exact ⟨[], by simp⟩
    · exact ⟨[.ai j], rfl⟩

lemma foldl_combineStep_combined_extend :
    ∀ (js : List Nat) (st : CombineState),
      ∃ t, (js.foldl combineStep st).combined = st.combined ++ t := by
  intro js
  induction js with
  | nil => exact fun st => ⟨[], by simp⟩
  | cons j js ih =>
    intro st
    obtain ⟨t2, h2⟩ := ih (combineStep st j)
    obtain ⟨t1, h1⟩ := combineStep_combined_extend st j
    exact ⟨t1 ++ t2, by simp [List.foldl_cons, h2, h1]⟩

/-- C10: the combined list returned by `combineErrors` starts with the
addresses of the caller's static issues (reference sharing with the
`staticErrors` array), and an AI issue that duplicates a static issue —
same row, case-insensitive column, same message — and carries a
`suggestedCorrection` the static issue lacks causes that static issue
object to be overwritten in place: its correction, `isAIIdentified` and
`aiConfidence` fields are written, so the caller's array now holds the
mutated object, and nothing new is appended for the duplicate. -/
theorem c10_combine_shares_and_mutates :
    (∀ statics ais : List ValidationError,
      (combineErrors statics ais).combined.take statics.length
        = (List.range statics.length).map ErrRef.stat) ∧
    (∀ (statics : List ValidationError) (ai : ValidationError) (i : Nat)
      (hi : i < statics.length),
      issueMatches statics[i] ai = true →
      (∀ k, k < i → ∀ se, statics[k]? = some se → issueMatches se ai = false) →
      ai.suggestedCorrection.isSome = true →
      statics[i].suggestedCorrection = none →
      (combineErrors statics [ai]).statics
        = statics.set i
            { statics[i] with
              suggestedCorrection := ai.suggestedCorrection
              isAIIdentified := some true
              aiConfidence := ai.aiConfidence } ∧
      (combineErrors statics [ai]).combined = (List.range statics.length).map ErrRef.stat) := by
  constructor
  · intro statics ais
    obtain ⟨t, ht⟩ := foldl_combineStep_combined_extend (List.range ais.length)
      ⟨statics, ais, (List.range statics.length).map ErrRef.stat⟩
    have hlen : ((List.range statics.length).map ErrRef.stat).length = statics.length := by
      simp
    unfold combineErrors
    rw [ht]
    exact List.take_left' hlen
  · intro statics ai i hi hmatch hfirst hsome hnone
    have hq1 : (match derefIssue ⟨statics, [ai], (List.range statics.length).map ErrRef.stat⟩
        (ErrRef.stat i) with
      | some se => issueMatches se ai
      | none => false) = true := by
      simp [derefIssue, List.getElem?_eq_getElem hi, hmatch]
    have hq2 : ∀ k, k < i →
        (match derefIssue ⟨statics, [ai], (List.range statics.length).map ErrRef.stat⟩
          (ErrRef.stat k) with
        | some se => issueMatches se ai
        | none => false) = false := by
      intro k hk
      have hkl : k < statics.length := by omega
      simp [derefIssue, List.getElem?_eq_getElem hkl]
      exact hfirst k hk statics[k] (List.getElem?_eq_getElem hkl)
    have hfind : (((List.range statics.length).map ErrRef.stat).find? (fun ref =>
        match derefIssue ⟨statics, [ai], (List.range statics.length).map ErrRef.stat⟩ ref with
        | some se => issueMatches se ai
        | none => false)) = some (.stat i) := by
      rw [find?_map_eq]
      show ((List.range statics.length).find? (fun k =>
          match derefIssue ⟨statics, [ai], (List.range statics.length).map ErrRef.stat⟩
            (ErrRef.stat k) with
          | some se => issueMatches se ai
          | none => false)).map ErrRef.stat = some (.stat i)
      rw [find?_range_first _ statics.length i hi hq1 hq2]
      rfl
    have hany : statics.any (fun se => issueMatches se ai) = true := by
      rw [List.any_eq_true]
      exact ⟨statics[i], List.getElem_mem hi, hmatch⟩
    have hstep : combineErrors statics [ai]
        = combineStep ⟨statics, [ai], (List.range statics.length).map ErrRef.stat⟩ 0 := rfl
    rw [hstep]
    unfold combineStep
    have hai0 : (⟨statics, [ai], (List.range statics.length).map ErrRef.stat⟩ :
        CombineState).ais[0]? = some ai := rfl
    rw [hai0]
    simp only [hany, if_true, hfind]
    have hderef : derefIssue ⟨statics, [ai], (List.range statics.length).map ErrRef.stat⟩
        (.stat i) = some statics[i] := by
      simp [derefIssue, List.getElem?_eq_getElem hi]
    rw [hderef]
    simp only [hsome, hnone, Option.isNone_none, Bool.and_true, if_true, writeIssue]
    constructor
    · first
      | rfl
      | trivial
    · first
      | rfl
      | trivial

/-- Witness for C10 at one static issue and one duplicating AI issue
carrying a correction. -/
theorem c10_combine_shares_and_mutates_witness :
    (combineErrors
        [⟨1, "Email", "bad", "warning", none, none, none, none⟩]
        [⟨1, "email", "bad", "warning",
          some ⟨"email", .prim (.str "x"), none⟩, some true, none, some 1⟩]).statics
      = [⟨1, "Email", "bad", "warning",
          some ⟨"email", .prim (.str "x"), none⟩, some true, none, some 1⟩] ∧
    (combineErrors
        [⟨1, "Email", "bad", "warning", none, none, none, none⟩]
        [⟨1, "email", "bad", "warning",
          some ⟨"email", .prim (.str "x"), none⟩, some true, none, some 1⟩]).combined
      = [.stat 0] := by
  have h := c10_combine_shares_and_mutates.2
    [⟨1, "Email", "bad", "warning", none, none, none, none⟩]
    ⟨1, "email", "bad", "warning", some ⟨"email", .prim (.str "x"), none⟩, some true, none, some 1⟩
    0 (by decide) (by decide) (fun k hk => absurd hk (Nat.not_lt_zero k)) (by decide) (by decide)
  exact ⟨h.1, h.2⟩

/-! ## Claims C2 and C3: resolver lemmas -/

/-- With pairwise-distinct ids, searching the reversed list (a JS `Map`
keeps the last insertion per key) finds the same rule as searching
forwards. -/
lemma find?_reverse_of_nodup_keys (l : List Rule) (h : (l.map Rule.id).Nodup) (i : String) :
    l.reverse.find? (fun r => r.id = i) = l.find? (fun r => r.id = i) := by
  induction l with
  | nil => rfl
  | cons a t ih =>
    simp only [List.map_cons, List.nodup_cons] at h
    rw [List.reverse_cons, List.find?_append, ih h.2]
    by_cases hpa : a.id = i
    · have hnone : t.find? (fun r => decide (r.id = i)) = none := by
        rw [List.find?_eq_none]
        intro x hx
        simp only [decide_eq_true_eq]
        intro hxi
        exact h.1 (List.mem_map.mpr ⟨x, hx, hxi.trans hpa.symm⟩)
      rw [hnone]
      simp [List.find?, hpa]
    · have hsingle : ([a].find? (fun r => decide (r.id = i))) = none := by
        simp [List.find?, hpa]
      rw [hsingle]
      simp [List.find?_cons, hpa]

lemma filterMap_filter_comm {α β : Type} (f : α → Option β) (p : β → Bool) :
    ∀ l : List α, (l.filterMap f).filter p
      = l.filterMap (fun a =>
          match f a with
          | some b => if p b then some b else none
          | none => none) := by
  intro l
  induction l with
  | nil => rfl
  | cons a t ih =>
    cases hfa : f a with
    | none => simp [List.filterMap_cons, hfa, ih]
    | some b =>
      by_cases hpb : p b = true <;> simp [List.filterMap_cons, hfa, hpb, ih]

/-- A resolved id names an enabled, non-override rule carrying that id. -/
lemma resolveId_shape {enabled : List Rule} {i : String} {r : Rule}
    (h : resolveId enabled i = some r) :
    r.id = i ∧ r ∈ enabled ∧ ¬(r.rtype = "precedenceOverride") := by
  unfold resolveId at h
  cases hf : enabled.find? (fun x => x.id = i) with
  | none => rw [hf] at h; simp at h
  | some x =>
    rw [hf] at h
    by_cases hov : x.rtype = "precedenceOverride"
    · simp [hov] at h
    · simp [hov] at h
      have hid : x.id = i := by simpa using List.find?_some hf
      have hmem : x ∈ enabled := List.mem_of_find?_eq_some hf
      exact h ▸ ⟨hid, hmem, hov⟩

/-- The implemented resolver refines the specification's description of it:
under the data-model invariant that rule ids are unique (among enabled
rules), `orderedRules` computes exactly the order described in §4.4. -/
lemma orderedRules_eq_spec (rules : List Rule)
    (h : ((activeRules rules).map Rule.id).Nodup) :
    orderedRules rules = resolverSpecOrder rules := by
  unfold orderedRules resolverSpecOrder
  cases hpr : precedenceRuleOf rules with
  | none => rfl
  | some pr =>
    by_cases hlen : 0 < pr.ruleIds.length
    · simp only [hlen, if_true]
      have hplaced : (pr.ruleIds.filterMap (rulesMapGet rules)).filter
            (fun r => r.isEnabled && !(r.rtype = "precedenceOverride"))
          = pr.ruleIds.filterMap (resolveId (activeRules rules)) := by
        rw [filterMap_filter_comm]
        apply List.filterMap_congr
        intro i _
        have hru : rulesMapGet rules i
            = (activeRules rules).reverse.find? (fun r => r.id = i) := rfl
        rw [hru, find?_reverse_of_nodup_keys _ h i]
        unfold resolveId
        cases hfi : (activeRules rules).find? (fun r => r.id = i) with
        | none => rfl
        | some r =>
          have hre : r.isEnabled = true :=
            (List.mem_filter.mp (List.mem_of_find?_eq_some hfi)).2
          by_cases hov : r.rtype = "precedenceOverride" <;> simp [hov, hre]
      rw [hplaced]
    · simp only [hlen, if_false]

/-- The rules of the worked example: three enabled concrete rules in
creation order and an enabled override listing `[R3, R1]`. -/
def c2R1 : Rule := ⟨"R1", "first", true, "manual", .concrete (.coRun ["T1", "T2"])⟩

def c2R2 : Rule := ⟨"R2", "second", true, "manual", .concrete (.coRun ["T9"])⟩

def c2R3 : Rule := ⟨"R3", "third", true, "manual", .concrete (.phaseWindow "T3" [Sum.inl 1])⟩

def c2Override : Rule :=
  ⟨"OV", "override", true, "manual", .concrete (.precedenceOverride ["R3", "R1"])⟩

/-- C2: with unique ids among enabled rules (a data-model invariant), the
implemented resolver computes exactly the order the claim describes —
listed ids resolved against the enabled rules with unresolvable ids
silently dropped, then the remaining enabled non-override rules in original
order; on the worked example the order is `[R3, R1, R2]`; and with no
enabled override the order is just the enabled non-override rules. -/
theorem c2_precedence_resolution :
    (∀ rules : List Rule, ((activeRules rules).map Rule.id).Nodup →
      orderedRules rules = resolverSpecOrder rules) ∧
    orderedRules [c2R1, c2R2, c2R3, c2Override] = [c2R3, c2R1, c2R2] ∧
    (∀ rules : List Rule, precedenceRuleOf rules = none →
      orderedRules rules
        = (activeRules rules).filter (fun r => !(r.rtype = "precedenceOverride"))) := by
  refine ⟨orderedRules_eq_spec, by decide, ?_⟩
  intro rules hpr
  unfold orderedRules
  rw [hpr]

/-- Witness for C2 at the worked example (whose enabled ids are distinct)
and at an override-free collection. -/
theorem c2_precedence_resolution_witness :
    orderedRules [c2R1, c2R2, c2R3, c2Override]
      = resolverSpecOrder [c2R1, c2R2, c2R3, c2Override] ∧
    orderedRules [c2R1, c2R2]
      = (activeRules [c2R1, c2R2]).filter (fun r => !(r.rtype = "precedenceOverride")) :=
  ⟨c2_precedence_resolution.1 [c2R1, c2R2, c2R3, c2Override] (by decide),
   c2_precedence_resolution.2.2 [c2R1, c2R2] (by decide)⟩

lemma count_filterMap_eq_countP {α β : Type} [DecidableEq β] (f : α → Option β) (b : β) :
    ∀ l : List α, (l.filterMap f).count b = l.countP (fun a => decide (f a = some b)) := by
  intro l
  induction l with
  | nil => rfl
  | cons a t ih =>
    cases hfa : f a with
    | none => simp [List.filterMap_cons, hfa, List.countP_cons, ih]
    | some y =>
      by_cases hyb : y = b
      · subst hyb
        simp [List.filterMap_cons, hfa, List.countP_cons, List.count_cons, ih]
      · simp [List.filterMap_cons, hfa, List.countP_cons, List.count_cons, ih, hyb]

/-- A predicate that forces its argument to equal a fixed key counts either
the key's occurrences or nothing. -/
lemma countP_key (p : String → Bool) (key : String) (hp : ∀ i, p i = true → i = key) :
    ∀ ids : List String, ids.countP p = if p key = true then ids.count key else 0 := by
  intro ids
  induction ids with
  | nil => by_cases hk : p key = true <;> simp [hk]
  | cons i ids ih =>
    by_cases hpi : p i = true
    · have hik : i = key := hp i hpi
      subst hik
      simp [List.countP_cons, List.count_cons, hpi, ih]
    · by_cases hk : p key = true
      · have hne : ¬ i = key := fun hx => hpi (by rw [hx]; exact hk)
        simp [List.countP_cons, List.count_cons, hpi, hk, ih, hne]
      · simp [List.countP_cons, hpi, hk, ih]

/-- The rules of the C3 counterexample: one enabled co-run rule and an
enabled override whose `ruleIds` lists that rule twice. -/
def c3R1 : Rule := ⟨"r1", "co-run", true, "manual", .concrete (.coRun ["t1"])⟩

def c3Override : Rule :=
  ⟨"ov", "override", true, "manual", .concrete (.precedenceOverride ["r1", "r1"])⟩

/-- C3 counterexample: when the override's `ruleIds` lists the same id
twice, the resolved ordering places that enabled non-override rule twice —
the claimed uniqueness ("exactly once") fails on this rule collection. -/
theorem c3_exactly_once_counterexample :
    c3R1 ∈ ([c3R1, c3Override] : List Rule) ∧ c3R1.isEnabled = true ∧
    ¬(c3R1.rtype = "precedenceOverride") ∧
    orderedRules [c3R1, c3Override] = [c3R1, c3R1] ∧
    (orderedRules [c3R1, c3Override]).count c3R1 = 2 := by
  refine ⟨by decide, by decide, by decide, by decide, by decide⟩

/-- C3 amended: with unique ids among enabled rules, the resolver's output
contains every enabled non-override rule at least once, and exactly once
provided the override's `ruleIds` has no duplicate entries (the
counterexample shows a duplicated id defeats uniqueness); the override
itself never appears in the output, nor in the `visibleRules` listing. -/
theorem c3_totality_uniqueness_amended :
    ∀ rules : List Rule, ((activeRules rules).map Rule.id).Nodup →
      (∀ r ∈ orderedRules rules, ¬(r.rtype = "precedenceOverride")) ∧
      (∀ r ∈ visibleRules rules, ¬(r.rtype = "precedenceOverride")) ∧
      (∀ r ∈ activeRules rules, ¬(r.rtype = "precedenceOverride") → r ∈ orderedRules rules) ∧
      ((∀ pr, precedenceRuleOf rules = some pr → pr.ruleIds.Nodup) →
        ∀ r ∈ activeRules rules, ¬(r.rtype = "precedenceOverride") →
          (orderedRules rules).count r = 1) := by
  intro rules h
  have hspec := orderedRules_eq_spec rules h
  have hnd : (activeRules rules).Nodup := List.Nodup.of_map _ h
  refine ⟨?_, ?_, ?_, ?_⟩
  · intro r hr
    rw [hspec] at hr
    unfold resolverSpecOrder at hr
    cases hpr : precedenceRuleOf rules with
    | none =>
      rw [hpr] at hr
      simpa using (List.mem_filter.mp hr).2
    | some pr =>
      rw [hpr] at hr
      by_cases hlen : 0 < pr.ruleIds.length
      · simp only [hlen, if_true] at hr
        rcases List.mem_append.mp hr with hp | hrest
        · rcases List.mem_filterMap.mp hp with ⟨i, _, hres⟩
          exact (resolveId_shape hres).2.2
        · have := (List.mem_filter.mp hrest).2
          simp only [Bool.and_eq_true] at this
          simpa using this.1
      · simp only [hlen, if_false] at hr
        simpa using (List.mem_filter.mp hr).2
  · intro r hr
    simpa using (List.mem_filter.mp hr).2
  · intro r hrmem hrov
    rw [hspec]
    unfold resolverSpecOrder
    cases hpr : precedenceRuleOf rules with
    | none => exact List.mem_filter.mpr ⟨hrmem, by simp [hrov]⟩
    | some pr =>
      by_cases hlen : 0 < pr.ruleIds.length
      · simp only [hlen, if_true]
        by_cases hplc : (pr.ruleIds.filterMap (resolveId (activeRules rules))).any
            (fun o => o.id = r.id) = true
        · rcases List.any_eq_true.mp hplc with ⟨o, homem, hoid⟩
          rcases List.mem_filterMap.mp homem with ⟨i, _, hires⟩
          have hsh := resolveId_shape hires
          have hor : o = r :=
            List.inj_on_of_nodup_map h hsh.2.1 hrmem (by simpa using hoid)
          exact List.mem_append.mpr (Or.inl (hor ▸ homem))
        · refine List.mem_append.mpr (Or.inr (List.mem_filter.mpr ⟨hrmem, ?_⟩))
          have hplc' : (pr.ruleIds.filterMap (resolveId (activeRules rules))).any
              (fun o => o.id = r.id) = false := Bool.not_eq_true _ ▸ eq_false_of_ne_true hplc
          simp [hrov, hplc']
      · simp only [hlen, if_false]
        exact List.mem_filter.mpr ⟨hrmem, by simp [hrov]⟩
  · intro hids r hrmem hrov
    rw [hspec]
    unfold resolverSpecOrder
    cases hpr : precedenceRuleOf rules with
    | none =>
      rw [List.count_filter (by simp [hrov])]
      exact List.count_eq_one_of_mem hnd hrmem
    | some pr =>
      have hnodids : pr.ruleIds.Nodup := hids pr hpr
      by_cases hlen : 0 < pr.ruleIds.length
      · simp only [hlen, if_true]
        rw [List.count_append]
        by_cases hin : r ∈ pr.ruleIds.filterMap (resolveId (activeRules rules))
        · have h1 : (pr.ruleIds.filterMap (resolveId (activeRules rules))).count r = 1 := by
            rw [count_filterMap_eq_countP]
            have hp : ∀ i, decide (resolveId (activeRules rules) i = some r) = true →
                i = r.id := by
              intro i hi
              exact ((resolveId_shape (of_decide_eq_true hi)).1).symm
            rw [countP_key _ r.id hp]
            rcases List.mem_filterMap.mp hin with ⟨i, hiids, hires⟩
            have hieq : i = r.id := ((resolveId_shape hires).1).symm
            have hres : resolveId (activeRules rules) r.id = some r := hieq ▸ hires
            rw [if_pos (by simp [hres])]
            exact List.count_eq_one_of_mem hnodids (hieq ▸ hiids)
          have h0 : ((activeRules rules).filter
              (fun x => !(x.rtype = "precedenceOverride") &&
                !((pr.ruleIds.filterMap (resolveId (activeRules rules))).any
                  (fun o => o.id = x.id)))).count r = 0 := by
            rw [List.count_eq_zero]
            intro hmem'
            have hpred := (List.mem_filter.mp hmem').2
            have hany : (pr.ruleIds.filterMap (resolveId (activeRules rules))).any
                (fun o => o.id = r.id) = true :=
              List.any_eq_true.mpr ⟨r, hin, by simp⟩
            simp [hany] at hpred
          rw [h1, h0]
        · have h1 : (pr.ruleIds.filterMap (resolveId (activeRules rules))).count r = 0 :=
            List.count_eq_zero.mpr hin
          have hanyf : (pr.ruleIds.filterMap (resolveId (activeRules rules))).any
              (fun o => o.id = r.id) = false := by
            by_contra hx
            have hx' := eq_true_of_ne_false (fun hf => hx hf)
            rcases List.any_eq_true.mp hx' with ⟨o, homem, hoid⟩
            rcases List.mem_filterMap.mp homem with ⟨i, _, hires⟩
            have hsh := resolveId_shape hires
            have hor : o = r :=
              List.inj_on_of_nodup_map h hsh.2.1 hrmem (by simpa using hoid)
            exact hin (hor ▸ homem)
          have h0 : ((activeRules rules).filter
              (fun x => !(x.rtype = "precedenceOverride") &&
                !((pr.ruleIds.filterMap (resolveId (activeRules rules))).any
                  (fun o => o.id = x.id)))).count r = 1 := by
            rw [List.count_filter (by simp [hrov, hanyf])]
            exact List.count_eq_one_of_mem hnd hrmem
          rw [h1, h0]
      · simp only [hlen, if_false]
        rw [List.count_filter (by simp [hrov])]
        exact List.count_eq_one_of_mem hnd hrmem

/-- Witness for C3 amended at a two-rule collection with distinct ids and a
duplicate-free override. -/
theorem c3_totality_uniqueness_amended_witness :
    c2R1 ∈ orderedRules [c2R1, c2R2, c2R3, c2Override] ∧
    (orderedRules [c2R1, c2R2, c2R3, c2Override]).count c2R1 = 1 := by
  have h := c3_totality_uniqueness_amended [c2R1, c2R2, c2R3, c2Override] (by decide)
  exact ⟨h.2.2.1 c2R1 (by decide) (by decide),
    h.2.2.2 (fun pr hpr => by
      have hh : precedenceRuleOf [c2R1, c2R2, c2R3, c2Override] = some c2Override := by decide
      rw [hh] at hpr
      cases hpr
      decide) c2R1 (by decide) (by decide)⟩

/-! ## Claims C5 and C9: validator lemmas -/

lemma take3_append (a x : String) (h : 3 ≤ a.data.length) :
    (a ++ x).data.take 3 = a.data.take 3 := by
  rw [string_data_append, List.take_append_of_le_length h]

lemma dupMsg_take3 (v : String) : (dupIdMsg v).data.take 3 = ['D', 'u', 'p'] := by
  unfold dupIdMsg
  rw [take3_append _ _ (by rw [string_data_append]; simp)]
  rw [take3_append _ _ (by decide)]
  decide

lemma dupMsg_inj {v w : String} (h : dupIdMsg v = dupIdMsg w) : v = w := by
  unfold dupIdMsg at h
  have hd := congrArg String.data h
  rw [string_data_append, string_data_append, string_data_append, string_data_append] at hd
  have h1 := List.append_cancel_right hd
  have h2 := List.append_cancel_left h1
  exact String.ext h2

lemma missingMsg_take3 (cat : FileCategory) (n : Nat) :
    (mkMissingIdErr cat n).message.data.take 3 = ['M', 'i', 's'] := by
  show (("Missing or empty '" ++ idColumnOf cat) ++ "'. This is a critical identifier.").data.take 3
      = ['M', 'i', 's']
  rw [take3_append _ _ (by rw [string_data_append]; simp)]
  rw [take3_append _ _ (by decide)]
  decide

lemma dueMsg_take3 (x : String) :
    ("Due Date must be a string or number (timestamp) for task '" ++ x).data.take 3
      = ['D', 'u', 'e'] := by
  rw [take3_append _ _ (by decide)]
  decide

lemma mkDupErr_ne_mkMissingIdErr (n : Nat) (idCol v : String) (cat : FileCategory) (m : Nat) :
    mkDupErr n idCol v ≠ mkMissingIdErr cat m := by
  intro h
  have hm : (mkDupErr n idCol v).message = (mkMissingIdErr cat m).message := by rw [h]
  have h3 : (dupIdMsg v).data.take 3 = (mkMissingIdErr cat m).message.data.take 3 := by
    rw [show dupIdMsg v = (mkDupErr n idCol v).message from rfl, hm]
  rw [dupMsg_take3, missingMsg_take3] at h3
  exact absurd h3 (by decide)

lemma mem_emptyColIssues_severity {idx : Nat} {r : Row} {e : ValidationError}
    (h : e ∈ emptyColIssues idx r) : e.severity = "warning" := by
  rcases List.mem_filterMap.mp h with ⟨p, _, hp⟩
  by_cases hc : isEmptyVal p.2 = true
  · rw [if_pos hc] at hp
    cases hp
    rfl
  · rw [if_neg hc] at hp
    cases hp

/-- Everything the base loop emits is either an empty-value warning or a
duplicate-id error whose message starts with "Dup". -/
lemma baseLoop_shape (idCol : String) :
    ∀ (rs : List Row) (idx : Nat) (seen : List String) (e : ValidationError),
      e ∈ baseLoop idCol rs idx seen →
      e.severity = "warning" ∨ e.message.data.take 3 = ['D', 'u', 'p'] := by
  intro rs
  induction rs with
  | nil => intro idx seen e he; simp [baseLoop] at he
  | cons r rs ih =>
    intro idx seen e he
    unfold baseLoop at he
    cases htid : trimmedId idCol r with
    | none =>
      rw [htid] at he
      rcases List.mem_append.mp he with h1 | h2
      · exact Or.inl (mem_emptyColIssues_severity h1)
      · exact ih (idx + 1) seen e h2
    | some idValue =>
      rw [htid] at he
      rcases List.mem_append.mp he with h12 | h3
      · rcases List.mem_append.mp h12 with h1 | h2
        · exact Or.inl (mem_emptyColIssues_severity h1)
        · by_cases hc : (!(idValue = "") && seen.contains idValue) = true
          · rw [if_pos hc] at h2
            have he' : e = mkDupErr (idx + 1) idCol idValue := by simpa using h2
            right
            rw [he']
            exact dupMsg_take3 idValue
          · rw [if_neg hc] at h2
            simp at h2
      · exact ih (idx + 1) (idValue :: seen) e h3

/-- Everything the category loop emits for one row is a warning, the
missing-identifier error of that row, or the due-date type error (message
starting "Due"). -/
lemma catRowIssues_shape (cat : FileCategory) (idx : Nat) (r : Row) (e : ValidationError)
    (he : e ∈ catRowIssues cat idx r) :
    e.severity = "warning" ∨ e = mkMissingIdErr cat (idx + 1) ∨
      (e.severity = "error" ∧ e.message.data.take 3 = ['D', 'u', 'e'] ∧ e.row = idx + 1) := by
  cases cat with
  | clients =>
    simp only [catRowIssues, clientRowIssues] at he
    rcases List.mem_append.mp he with h12 | h3
    · rcases List.mem_append.mp h12 with h1 | h2
      · split at h1
        · right
          left
          simpa using h1
        · simp at h1
      · split at h2
        · simp at h2
        · split at h2
          · split at h2
            · split at h2
              · left
                simp at h2
                rw [h2]
                rfl
              · simp at h2
            · simp at h2
          · simp at h2
    · split at h3
      · simp at h3
      · split at h3
        · split at h3
          · simp at h3
          · left
            simp at h3
            rw [h3]
            rfl
        · simp at h3
  | workers =>
    simp only [catRowIssues, workerRowIssues] at he
    rcases List.mem_append.mp he with h12 | h3
    · rcases List.mem_append.mp h12 with h1 | h2
      · split at h1
        · right
          left
          simpa using h1
        · simp at h1
      · split at h2
        · left
          simp at h2
          rw [h2]
        · simp at h2
    · split at h3
      · simp at h3
      · split at h3
        · split at h3
          · left
            simp at h3
            rw [h3]
          · split at h3
            · left
              simp at h3
              rw [h3]
            · simp at h3
        · simp at h3
  | tasks =>
    simp only [catRowIssues, taskRowIssues] at he
    rcases List.mem_append.mp he with h12 | h3
    · rcases List.mem_append.mp h12 with h1 | h2
      · split at h1
        · right
          left
          simpa using h1
        · simp at h1
      · split at h2
        · simp at h2
        · split at h2
          · split at h2
            · simp at h2
            · left
              simp at h2
              rw [h2]
          · simp at h2
    · split at h3
      · simp at h3
      · split at h3
        · split at h3
          · split at h3
            · simp at h3
            · left
              simp at h3
              rw [h3]
          · split at h3
            · simp at h3
            · left
              simp at h3
              rw [h3]
          · right
            right
            simp at h3
            rw [h3]
            refine ⟨rfl, ?_, rfl⟩
            exact dueMsg_take3 _
        · simp at h3

/-- Where the duplicate-id error appears in the base loop: exactly on a row
whose non-empty trimmed id already occurred — in the carried set or on an
earlier row of the segment. -/
lemma mem_baseLoop_dup (idCol v : String) (n : Nat) :
    ∀ (rs : List Row) (idx : Nat) (seen : List String),
      (mkDupErr n idCol v ∈ baseLoop idCol rs idx seen ↔
        ∃ i, ∃ hi : i < rs.length, n = idx + i + 1 ∧ v ≠ "" ∧
          trimmedId idCol rs[i] = some v ∧
          (v ∈ seen ∨ ∃ j, ∃ hj : j < i, trimmedId idCol rs[j] = some v)) := by
  intro rs
  induction rs with
  | nil =>
    intro idx seen
    simp [baseLoop]
  | cons r rs ih =>
    intro idx seen
    unfold baseLoop
    cases htid : trimmedId idCol r with
    | none =>
      constructor
      · intro he
        rcases List.mem_append.mp he with h1 | h3
        · exact absurd (mem_emptyColIssues_severity h1) (by simp [mkDupErr])
        · obtain ⟨i, hi, hn, hv, hti, hcond⟩ := (ih (idx + 1) seen).mp h3
          refine ⟨i + 1, by (try simp only [List.length_cons] at *); omega, by (try simp only [List.length_cons] at *); omega, hv, by simpa using hti, ?_⟩
          rcases hcond with hs | ⟨j, hj, htj⟩
          · exact Or.inl hs
          · exact Or.inr ⟨j + 1, by (try simp only [List.length_cons] at *); omega, by simpa using htj⟩
      · rintro ⟨i, hi, hn, hv, hti, hcond⟩
        cases i with
        | zero =>
          rw [List.getElem_cons_zero, htid] at hti
          cases hti
        | succ i' =>
          apply List.mem_append.mpr
          right
          apply (ih (idx + 1) seen).mpr
          have hb1 : i' < rs.length := by
            simp only [List.length_cons] at hi
            omega
          have hb2 : n = idx + 1 + i' + 1 := by omega
          refine ⟨i', hb1, hb2, hv, by simpa using hti, ?_⟩
          rcases hcond with hs | ⟨j, hj, htj⟩
          · exact Or.inl hs
          · cases j with
            | zero =>
              rw [List.getElem_cons_zero, htid] at htj
              cases htj
            | succ j' => exact Or.inr ⟨j', by omega, by simpa using htj⟩
    | some idValue =>
      constructor
      · intro he
        rcases List.mem_append.mp he with h12 | h3
        · rcases List.mem_append.mp h12 with h1 | h2
          · exact absurd (mem_emptyColIssues_severity h1) (by simp [mkDupErr])
          · by_cases hc : (!(idValue = "") && seen.contains idValue) = true
            · rw [if_pos hc] at h2
              have he' : mkDupErr n idCol v = mkDupErr (idx + 1) idCol idValue := by
                simpa using h2
              have hn : n = idx + 1 := congrArg ValidationError.row he'
              have hveq : v = idValue := dupMsg_inj (congrArg ValidationError.message he')
              rw [Bool.and_eq_true] at hc
              have hv : v ≠ "" := by
                intro hemp
                rw [hveq] at hemp
                simp [hemp] at hc
              have hseen : v ∈ seen := by
                rw [hveq]
                exact List.elem_iff.mp hc.2
              exact ⟨0, by (try simp only [List.length_cons] at *); omega, by (try simp only [List.length_cons] at *); omega, hv,
                by rw [List.getElem_cons_zero, htid, hveq], Or.inl hseen⟩
            · rw [if_neg hc] at h2
              simp at h2
        · obtain ⟨i, hi, hn, hv, hti, hcond⟩ := (ih (idx + 1) (idValue :: seen)).mp h3
          refine ⟨i + 1, by (try simp only [List.length_cons] at *); omega, by (try simp only [List.length_cons] at *); omega, hv, by simpa using hti, ?_⟩
          rcases hcond with hs | ⟨j, hj, htj⟩
          · rcases List.mem_cons.mp hs with hvi | hs'
            · refine Or.inr ⟨0, by (try simp only [List.length_cons] at *); omega, ?_⟩
              rw [List.getElem_cons_zero, htid, hvi]
            · exact Or.inl hs'
          · exact Or.inr ⟨j + 1, by (try simp only [List.length_cons] at *); omega, by simpa using htj⟩
      · rintro ⟨i, hi, hn, hv, hti, hcond⟩
        cases i with
        | zero =>
          rw [List.getElem_cons_zero, htid] at hti
          have hvi : idValue = v := by
            cases hti
            rfl
          rcases hcond with hs | ⟨j, hj, _⟩
          · apply List.mem_append.mpr
            left
            apply List.mem_append.mpr
            right
            have hc : (!(idValue = "") && seen.contains idValue) = true := by
              rw [Bool.and_eq_true]
              constructor
              · simp [hvi, hv]
              · rw [hvi]
                exact List.elem_iff.mpr hs
            rw [if_pos hc, hn, hvi]
            exact List.mem_singleton.mpr rfl
          · omega
        | succ i' =>
          apply List.mem_append.mpr
          right
          apply (ih (idx + 1) (idValue :: seen)).mpr
          have hb1 : i' < rs.length := by
            simp only [List.length_cons] at hi
            omega
          have hb2 : n = idx + 1 + i' + 1 := by omega
          refine ⟨i', hb1, hb2, hv, by simpa using hti, ?_⟩
          rcases hcond with hs | ⟨j, hj, htj⟩
          · exact Or.inl (List.mem_cons.mpr (Or.inr hs))
          · cases j with
            | zero =>
              rw [List.getElem_cons_zero, htid] at htj
              have : idValue = v := by
                cases htj
                rfl
              exact Or.inl (List.mem_cons.mpr (Or.inl this.symm))
            | succ j' => exact Or.inr ⟨j', by omega, by simpa using htj⟩

lemma mem_catLoop_iff (cat : FileCategory) (e : ValidationError) :
    ∀ (rs : List Row) (idx : Nat),
      e ∈ catLoop cat rs idx ↔
        ∃ i, ∃ hi : i < rs.length, e ∈ catRowIssues cat (idx + i) rs[i] := by
  intro rs
  induction rs with
  | nil =>
    intro idx
    simp [catLoop]
  | cons r rs ih =>
    intro idx
    unfold catLoop
    rw [List.mem_append, ih (idx + 1)]
    constructor
    · rintro (h0 | ⟨i, hi, hmem⟩)
      · exact ⟨0, by (try simp only [List.length_cons] at *); omega, by simpa using h0⟩
      · refine ⟨i + 1, by (try simp only [List.length_cons] at *); omega, ?_⟩
        have harith : idx + 1 + i = idx + (i + 1) := by (try simp only [List.length_cons] at *); omega
        rw [← harith]
        simpa using hmem
    · rintro ⟨i, hi, hmem⟩
      cases i with
      | zero =>
        left
        simpa using hmem
      | succ i' =>
        right
        have hb1 : i' < rs.length := by
          simp only [List.length_cons] at hi
          omega
        refine ⟨i', hb1, ?_⟩
        have harith : idx + 1 + i' = idx + (i' + 1) := by omega
        rw [harith]
        simpa using hmem

/-- Every issue the category loop emits for one row carries that row's
1-based number. -/
lemma catRowIssues_row (cat : FileCategory) (idx : Nat) (r : Row) (e : ValidationError)
    (he : e ∈ catRowIssues cat idx r) : e.row = idx + 1 := by
  cases cat with
  | clients =>
    simp only [catRowIssues, clientRowIssues] at he
    rcases List.mem_append.mp he with h12 | h3
    · rcases List.mem_append.mp h12 with h1 | h2
      · repeat' split at h1
        all_goals simp_all [mkMissingIdErr, mkEmailWarn]
      · repeat' split at h2
        all_goals simp_all [mkMissingIdErr, mkEmailWarn]
    · repeat' split at h3
      all_goals simp_all [mkStatusWarn]
  | workers =>
    simp only [catRowIssues, workerRowIssues] at he
    rcases List.mem_append.mp he with h12 | h3
    · rcases List.mem_append.mp h12 with h1 | h2
      · repeat' split at h1
        all_goals simp_all [mkMissingIdErr]
      · repeat' split at h2
        all_goals simp_all
    · repeat' split at h3
      all_goals simp_all
  | tasks =>
    simp only [catRowIssues, taskRowIssues] at he
    rcases List.mem_append.mp he with h12 | h3
    · rcases List.mem_append.mp h12 with h1 | h2
      · repeat' split at h1
        all_goals simp_all [mkMissingIdErr]
      · repeat' split at h2
        all_goals simp_all
    · repeat' split at h3
      all_goals simp_all

/-- The missing-critical-identifier error appears for a row exactly when
the row's primary key is empty. -/
lemma mem_catRowIssues_missing (cat : FileCategory) (idx : Nat) (r : Row) :
    mkMissingIdErr cat (idx + 1) ∈ catRowIssues cat idx r ↔
      isEmptyOpt (Row.get r (idColumnOf cat)) = true := by
  constructor
  · intro he
    by_cases hcond : isEmptyOpt (Row.get r (idColumnOf cat)) = true
    · exact hcond
    · exfalso
      cases cat with
      | clients =>
        simp only [idColumnOf] at hcond
        simp only [catRowIssues, clientRowIssues, if_neg hcond] at he
        repeat' split at he
        all_goals simp_all [mkMissingIdErr, mkEmailWarn, mkStatusWarn, idColumnOf]
      | workers =>
        simp only [idColumnOf] at hcond
        simp only [catRowIssues, workerRowIssues, if_neg hcond] at he
        repeat' split at he
        all_goals simp_all [mkMissingIdErr, idColumnOf]
      | tasks =>
        simp only [idColumnOf] at hcond
        simp only [catRowIssues, taskRowIssues, if_neg hcond] at he
        repeat' split at he
        all_goals simp_all [mkMissingIdErr, idColumnOf]
  · intro hcond
    cases cat with
    | clients =>
      simp only [idColumnOf] at hcond
      simp only [catRowIssues, clientRowIssues, if_pos hcond]
      exact List.mem_append.mpr (Or.inl (List.mem_append.mpr (Or.inl (by simp))))
    | workers =>
      simp only [idColumnOf] at hcond
      simp only [catRowIssues, workerRowIssues, if_pos hcond]
      exact List.mem_append.mpr (Or.inl (List.mem_append.mpr (Or.inl (by simp))))
    | tasks =>
      simp only [idColumnOf] at hcond
      simp only [catRowIssues, taskRowIssues, if_pos hcond]
      exact List.mem_append.mpr (Or.inl (List.mem_append.mpr (Or.inl (by simp))))

/-! ## Claim C5 -/

/-- C5: the validator tracks the category's primary-key column in a
case-sensitive, trim-normalized set — the duplicate-id error appears on a
row exactly when its non-empty trimmed id equals the trimmed id of some
earlier row (first occurrences are never flagged), and the separate
missing-critical-identifier error appears on a row exactly when its primary
key is empty, independently of the duplicate check. -/
theorem c5_primary_key_tracking :
    ∀ (data : List Row) (cat : FileCategory) (i : Nat) (hi : i < data.length) (v : String),
      (mkDupErr (i + 1) (idColumnOf cat) v ∈ validateData data cat ↔
        (v ≠ "" ∧ trimmedId (idColumnOf cat) data[i] = some v ∧
          ∃ j, ∃ hj : j < i, trimmedId (idColumnOf cat) data[j] = some v)) ∧
      (mkMissingIdErr cat (i + 1) ∈ validateData data cat ↔
        isEmptyOpt (Row.get data[i] (idColumnOf cat)) = true) := by
  intro data cat i hi v
  have hne : data.isEmpty = false := by
    cases data
    · simp at hi
    · rfl
  have hval : validateData data cat
      = baseLoop (idColumnOf cat) data 0 [] ++ catLoop cat data 0 := by
    simp [validateData, hne]
  constructor
  · rw [hval, List.mem_append]
    constructor
    · rintro (hb | hc)
      · obtain ⟨i', hi', hn, hv, hti, hcond⟩ :=
          (mem_baseLoop_dup (idColumnOf cat) v (i + 1) data 0 []).mp hb
        have hieq : i' = i := by omega
        subst hieq
        refine ⟨hv, hti, ?_⟩
        rcases hcond with hs | hj
        · simp at hs
        · exact hj
      · exfalso
        obtain ⟨i', hi', hmem⟩ := (mem_catLoop_iff cat _ data 0).mp hc
        rcases catRowIssues_shape cat (0 + i') data[i'] _ hmem with hw | hm | hd
        · exact absurd hw (by simp [mkDupErr])
        · exact mkDupErr_ne_mkMissingIdErr _ _ _ _ _ hm
        · have h3 := hd.2.1
          rw [show (mkDupErr (i + 1) (idColumnOf cat) v).message = dupIdMsg v from rfl,
            dupMsg_take3] at h3
          exact absurd h3 (by decide)
    · rintro ⟨hv, hti, hj⟩
      left
      exact (mem_baseLoop_dup (idColumnOf cat) v (i + 1) data 0 []).mpr
        ⟨i, hi, by omega, hv, hti, Or.inr hj⟩
  · rw [hval, List.mem_append]
    constructor
    · rintro (hb | hc)
      · exfalso
        rcases baseLoop_shape (idColumnOf cat) data 0 [] _ hb with hw | h3
        · exact absurd hw (by simp [mkMissingIdErr])
        · rw [missingMsg_take3] at h3
          exact absurd h3 (by decide)
      · obtain ⟨i', hi', hmem⟩ := (mem_catLoop_iff cat _ data 0).mp hc
        have hrow := catRowIssues_row cat (0 + i') data[i'] _ hmem
        have hrow' : i + 1 = 0 + i' + 1 := hrow
        have hieq : i' = i := by omega
        subst hieq
        rw [Nat.zero_add] at hmem
        exact (mem_catRowIssues_missing _ _ _).mp hmem
    · intro hcond
      right
      apply (mem_catLoop_iff cat _ data 0).mpr
      refine ⟨i, hi, ?_⟩
      rw [Nat.zero_add]
      exact (mem_catRowIssues_missing cat i data[i]).mpr hcond

/-- Witness for C5 at the specification's example: task ids `"C1"` and
`"C1 "` (trailing space) — the second row is flagged as a duplicate after
trimming, the first is not. -/
theorem c5_primary_key_tracking_witness :
    mkDupErr 2 (idColumnOf .tasks) "C1" ∈
      validateData [[("taskId", .prim (.str "C1"))], [("taskId", .prim (.str "C1 "))]] .tasks ∧
    ¬ (mkDupErr 1 (idColumnOf .tasks) "C1" ∈
      validateData [[("taskId", .prim (.str "C1"))], [("taskId", .prim (.str "C1 "))]] .tasks) := by
  constructor
  · exact (c5_primary_key_tracking
        [[("taskId", .prim (.str "C1"))], [("taskId", .prim (.str "C1 "))]] .tasks 1
        (by decide) "C1").1.mpr
      ⟨by decide, by decide, 0, Nat.zero_lt_one, by decide⟩
  · intro hmem
    obtain ⟨_, _, j, hj, _⟩ := (c5_primary_key_tracking
        [[("taskId", .prim (.str "C1"))], [("taskId", .prim (.str "C1 "))]] .tasks 0
        (by decide) "C1").1.mp hmem
    omega

/-! ## Claim C9 -/

/-- C9 counterexample: a client row whose email column holds the number
`123` — the value is present and non-empty and does not match the
local@domain pattern, yet the validator emits no issue at all: non-string
email values are never checked. -/
theorem c9_nonstring_email_counterexample :
    Row.get [("clientId", .prim (.str "A")), ("email", .prim (.num 123))] "email"
      = some (.prim (.num 123)) ∧
    isEmptyOpt (Row.get [("clientId", .prim (.str "A")), ("email", .prim (.num 123))] "email")
      = false ∧
    emailOk (jsTrim (jsToString (.prim (.num 123)))) = false ∧
    validateData [[("clientId", .prim (.str "A")), ("email", .prim (.num 123))]] .clients
      = [] := by
  refine ⟨by decide, by decide, by decide, by decide⟩

/-- C9 amended: for a client row whose email value is a string — and only
then — a present, non-empty value failing the local@domain pattern yields
the email-format warning on that row's email column (the counterexample
shows non-string values pass unchecked). -/
theorem c9_email_warning_amended :
    ∀ (data : List Row) (i : Nat) (hi : i < data.length) (s : String),
      Row.get data[i] "email" = some (.prim (.str s)) →
      ¬ s = "" → ¬ jsTrim s = "" →
      emailOk (jsTrim s) = false →
      mkEmailWarn (i + 1) (.prim (.str s)) ∈ validateData data .clients := by
  intro data i hi s hget hs hts hbad
  have hne : data.isEmpty = false := by
    cases data
    · simp at hi
    · rfl
  have hval : validateData data .clients
      = baseLoop (idColumnOf .clients) data 0 [] ++ catLoop .clients data 0 := by
    simp [validateData, hne]
  rw [hval]
  apply List.mem_append.mpr
  right
  apply (mem_catLoop_iff .clients _ data 0).mpr
  refine ⟨i, hi, ?_⟩
  rw [Nat.zero_add]
  simp only [catRowIssues, clientRowIssues]
  apply List.mem_append.mpr
  left
  apply List.mem_append.mpr
  right
  have htr : truthy (.prim (.str s)) = true := by simp [truthy, hs]
  have hie : isEmptyVal (.prim (.str s)) = false := by
    simp [isEmptyVal, jsToString, scalarToString, hts]
  simp [hget, htr, hie, hbad]

/-- Witness for C9 amended at the specification's example row
`{email: "not-an-email"}`. -/
theorem c9_email_warning_amended_witness :
    mkEmailWarn 1 (.prim (.str "not-an-email")) ∈
      validateData [[("clientId", .prim (.str "A")), ("email", .prim (.str "not-an-email"))]]
        .clients :=
  c9_email_warning_amended
    [[("clientId", .prim (.str "A")), ("email", .prim (.str "not-an-email"))]] 0 (by decide)
    "not-an-email" (by decide) (by decide) (by decide) (by decide)

end DataAlchemist
